import Mathlib

/-!
Verification development for the `yt-transcript-ts` repository.

The two core components are shallowly embedded over `List Char`:

* `src/js-var-parser.ts` — the embedded-object extractor (`JsVarParser`):
  the character-by-character brace scanner, the regex fallback patterns,
  single-quote normalization, and strict JSON parsing.
* `src/transcript-parser.ts` — the caption-XML decoder (`TranscriptParser`):
  structural pre-checks, per-segment attribute handling (`parseFloat`
  semantics over `ℚ`), whitespace normalization, and the two rendering
  modes over an inline-markup AST.

Modelling conventions:

* JavaScript strings are modelled as `List Char` (inputs under study are
  within the Basic Multilingual Plane, so UTF-16 code-unit indexing and
  scalar-value indexing agree on them).
* JavaScript IEEE-754 doubles are modelled as exact rationals
  (plus explicit infinities for `parseFloat`); the decimal literals
  appearing in the claims are below any rounding boundary.  Rationals are
  carried as normalized numerator/denominator pairs (`NRat`) with
  fuel-driven gcd so that every definition evaluates inside the kernel.
* Fallible operations return `Option`/`Except`.
-/

namespace YtSpec

/-- Strings are modelled as lists of characters. -/
abbrev Str := List Char

/-- Coerce a Lean string literal to the `List Char` model. -/
def str (s : String) : Str := s.data

/-! ## Generic list/string utilities mirroring the JavaScript built-ins used -/

/-- Index of the first occurrence of `m` as a contiguous sublist of `s`
(JavaScript `String.prototype.indexOf` for a substring). -/
def findSubIdx (m : Str) : Str → Option Nat
  | [] => if m.isPrefixOf [] then some 0 else none
  | c :: t =>
    if m.isPrefixOf (c :: t) then some 0
    else (findSubIdx m t).map (· + 1)

/-- Whether `m` occurs as a contiguous sublist of `s`
(JavaScript `String.prototype.includes`). -/
def hasSub (m s : Str) : Bool :=
  (findSubIdx m s).isSome

/-- Index of the first character satisfying `p` (JavaScript
`String.prototype.indexOf` for a character). -/
def findCharIdx (p : Char → Bool) : Str → Option Nat
  | [] => none
  | c :: t => if p c then some 0 else (findCharIdx p t).map (· + 1)

/-- Count of non-overlapping occurrences of the literal `m` in `s`, scanning
left to right (JavaScript `s.match(/literal/g).length`).  Fuel-driven so the
definition is structural. -/
def countSubAux : Nat → Str → Str → Nat
  | 0, _, _ => 0
  | fuel + 1, m, s =>
    match findSubIdx m s with
    | none => 0
    | some i =>
      if m.isEmpty then 0
      else 1 + countSubAux fuel m (s.drop (i + m.length))

/-- Count of non-overlapping occurrences of the nonempty literal `m` in `s`. -/
def countSub (m s : Str) : Nat := countSubAux (s.length + 1) m s

/-! ## Exact rational numbers with kernel-reducible arithmetic -/

/-- A rational number as a normalized numerator/denominator pair. -/
structure NRat where
  num : Int
  den : Nat
  deriving DecidableEq

/-- Euclid's algorithm with explicit fuel (so it is structurally
recursive); `natGcdF` supplies enough fuel for any input. -/
def gcdFuel : Nat → Nat → Nat → Nat
  | 0, _, b => b
  | fuel + 1, a, b => if a = 0 then b else gcdFuel fuel (b % a) a

/-- Greatest common divisor. -/
def natGcdF (a b : Nat) : Nat := gcdFuel (a + 1) a b

/-- Build a normalized rational from a numerator and a positive
denominator. -/
def nrMk (n : Int) (d : Nat) : NRat :=
  if d = 0 then { num := 0, den := 0 }
  else
    let g := natGcdF n.natAbs d
    if g = 0 then { num := 0, den := 1 }
    else { num := n / (g : Int), den := d / g }

/-- Rational addition. -/
def nrAdd (a b : NRat) : NRat :=
  nrMk (a.num * b.den + b.num * a.den) (a.den * b.den)

/-- Rational multiplication. -/
def nrMul (a b : NRat) : NRat :=
  nrMk (a.num * b.num) (a.den * b.den)

/-- Rational division. -/
def nrDiv (a b : NRat) : NRat :=
  if b.num < 0 then nrMk (-(a.num * b.den)) (a.den * b.num.natAbs)
  else nrMk (a.num * b.den) (a.den * b.num.natAbs)

/-- Rational negation. -/
def nrNeg (a : NRat) : NRat := { num := -a.num, den := a.den }

/-- The rational for a natural number. -/
def nrOfNat (n : Nat) : NRat := { num := n, den := 1 }

/-- `10 ^ k` as an integer (structurally recursive). -/
def pow10 : Nat → Int
  | 0 => 1
  | k + 1 => 10 * pow10 k

/-! ## JSON values and strict parsing (`JSON.parse`)

The extractor's final step is JavaScript's `JSON.parse`.  `Json` mirrors the
spec's `StructuredValue`: null, booleans, numbers, strings, arrays, and
objects (association lists in first-assignment key order, later duplicate
keys overwriting earlier values in place, as JavaScript property assignment
does). -/

inductive Json where
  | null : Json
  | bool (b : Bool) : Json
  | num (q : NRat) : Json
  | str (s : Str) : Json
  | arr (items : List Json) : Json
  | obj (members : List (Str × Json)) : Json

/-- JSON whitespace (strictly the four characters the JSON grammar allows). -/
def isJsonWs (c : Char) : Bool :=
  c = ' ' ∨ c = '\t' ∨ c = '\n' ∨ c = '\r'

/-- Drop leading JSON whitespace. -/
def skipWs (s : Str) : Str := s.dropWhile isJsonWs

/-- Property assignment on a JavaScript object under construction: an
existing key keeps its position but the value is overwritten. -/
def insertKey (k : Str) (v : Json) : List (Str × Json) → List (Str × Json)
  | [] => [(k, v)]
  | (k', v') :: rest =>
    if k' = k then (k, v) :: rest else (k', v') :: insertKey k v rest

/-- Parse the four-hex-digit part of a `\uXXXX` escape. -/
def hexVal (c : Char) : Option Nat :=
  if '0' ≤ c ∧ c ≤ '9' then some (c.toNat - '0'.toNat)
  else if 'a' ≤ c ∧ c ≤ 'f' then some (c.toNat - 'a'.toNat + 10)
  else if 'A' ≤ c ∧ c ≤ 'F' then some (c.toNat - 'A'.toNat + 10)
  else none

/-- Decode a string-literal body after the opening quote, returning the
content and the remainder after the closing quote.  Strict JSON: only the
nine named escapes and `\uXXXX`; raw control characters are rejected.
(`\uXXXX` denoting a lone UTF-16 surrogate is rejected by the model, since
Lean characters are Unicode scalar values; no input studied here uses it.) -/
def pjString : Nat → Str → Option (Str × Str)
  | 0, _ => none
  | fuel + 1, s =>
    match s with
    | [] => none
    | c :: rest =>
      if c = '"' then some ([], rest)
      else if c = '\\' then
        match rest with
        | [] => none
        | e :: rest2 =>
          let simpleEsc : Option Char :=
            if e = '"' then some '"'
            else if e = '\\' then some '\\'
            else if e = '/' then some '/'
            else if e = 'b' then some (Char.ofNat 8)
            else if e = 'f' then some (Char.ofNat 12)
            else if e = 'n' then some '\n'
            else if e = 'r' then some '\r'
            else if e = 't' then some '\t'
            else none
          match simpleEsc with
          | some d =>
            match pjString fuel rest2 with
            | some (content, rem) => some (d :: content, rem)
            | none => none
          | none =>
            if e = 'u' then
              match rest2 with
              | h1 :: h2 :: h3 :: h4 :: rest3 =>
                match hexVal h1, hexVal h2, hexVal h3, hexVal h4 with
                | some a, some b, some c', some d =>
                  let n := ((a * 16 + b) * 16 + c') * 16 + d
                  if n.isValidChar then
                    match pjString fuel rest3 with
                    | some (content, rem) => some (Char.ofNat n :: content, rem)
                    | none => none
                  else none
                | _, _, _, _ => none
              | _ => none
            else none
      else if c.toNat < 32 then none
      else
        match pjString fuel rest with
        | some (content, rem) => some (c :: content, rem)
        | none => none

/-- ASCII decimal digit test. -/
def isDig (c : Char) : Bool := '0' ≤ c ∧ c ≤ '9'

/-- Numeric value of a digit string. -/
def digitsVal (ds : Str) : Nat :=
  ds.foldl (fun acc c => acc * 10 + (c.toNat - '0'.toNat)) 0

/-- Parse a strict JSON number (`-?(0|[1-9][0-9]*)(\.[0-9]+)?([eE][+-]?[0-9]+)?`),
returning its exact rational value and the remainder. -/
def pjNumber (s : Str) : Option (NRat × Str) :=
  let (neg, s1) :=
    match s with
    | '-' :: rest => (true, rest)
    | _ => (false, s)
  let intDigits := s1.takeWhile isDig
  let s2 := s1.dropWhile isDig
  if intDigits = [] then none
  else if intDigits.length > 1 ∧ intDigits.headI = '0' then none
  else
    let (fracDigits, s3) :=
      match s2 with
      | '.' :: rest => (rest.takeWhile isDig, rest.dropWhile isDig)
      | _ => ([], s2)
    if s2 ≠ s3 ∧ fracDigits = [] then none
    else
      let expPart : Option (Bool × Str × Str) :=
        match s3 with
        | e :: rest =>
          if e = 'e' ∨ e = 'E' then
            let (esign, rest2) :=
              match rest with
              | '-' :: r => (true, r)
              | '+' :: r => (false, r)
              | _ => (false, rest)
            let eds := rest2.takeWhile isDig
            if eds = [] then none else some (esign, eds, rest2.dropWhile isDig)
          else none
        | [] => none
      let (esign, eds, s4) :=
        match expPart with
        | some (es, ed, r) => (es, ed, r)
        | none => (false, [], s3)
      let mantissa : NRat :=
        nrAdd (nrOfNat (digitsVal intDigits))
          (nrDiv (nrOfNat (digitsVal fracDigits)) { num := pow10 fracDigits.length, den := 1 })
      let ePow : NRat := { num := pow10 (digitsVal eds), den := 1 }
      let scaled : NRat :=
        if esign then nrDiv mantissa ePow else nrMul mantissa ePow
      some ((if neg then nrNeg scaled else scaled), s4)

mutual

/-- Parse a strict JSON value (whitespace before it already consumed). -/
def pjValue : Nat → Str → Option (Json × Str)
  | 0, _ => none
  | fuel + 1, s =>
    match s with
    | [] => none
    | c :: rest =>
      if c = '{' then
        let s1 := skipWs rest
        match s1 with
        | '}' :: r => some (.obj [], r)
        | _ => pjMembers fuel s1 []
      else if c = '[' then
        let s1 := skipWs rest
        match s1 with
        | ']' :: r => some (.arr [], r)
        | _ => pjItems fuel s1 []
      else if c = '"' then
        match pjString (fuel + 1) rest with
        | some (content, rem) => some (.str content, rem)
        | none => none
      else if c = 't' then
        if (str "rue").isPrefixOf rest then some (.bool true, rest.drop 3) else none
      else if c = 'f' then
        if (str "alse").isPrefixOf rest then some (.bool false, rest.drop 4) else none
      else if c = 'n' then
        if (str "ull").isPrefixOf rest then some (.null, rest.drop 3) else none
      else
        match pjNumber s with
        | some (q, rem) => some (.num q, rem)
        | none => none

/-- Parse the members of an object after `{` (at least one member present). -/
def pjMembers : Nat → Str → List (Str × Json) → Option (Json × Str)
  | 0, _, _ => none
  | fuel + 1, s, acc =>
    match s with
    | '"' :: rest =>
      match pjString (fuel + 1) rest with
      | some (key, rem) =>
        match skipWs rem with
        | ':' :: rem2 =>
          match pjValue fuel (skipWs rem2) with
          | some (v, rem3) =>
            let acc' := insertKey key v acc
            match skipWs rem3 with
            | ',' :: rem4 => pjMembers fuel (skipWs rem4) acc'
            | '}' :: rem4 => some (.obj acc', rem4)
            | _ => none
          | none => none
        | _ => none
      | none => none
    | _ => none

/-- Parse the items of an array after `[` (at least one item present). -/
def pjItems : Nat → Str → List Json → Option (Json × Str)
  | 0, _, _ => none
  | fuel + 1, s, acc =>
    match pjValue fuel s with
    | some (v, rem) =>
      match skipWs rem with
      | ',' :: rem2 => pjItems fuel (skipWs rem2) (acc ++ [v])
      | ']' :: rem2 => some (.arr (acc ++ [v]), rem2)
      | _ => none
    | none => none

end

/-- Strict JSON parsing of a whole string (`JSON.parse`): one value with
only whitespace around it. -/
def jsonParse (s : Str) : Option Json :=
  match pjValue (s.length + 2) (skipWs s) with
  | some (v, rem) => if skipWs rem = [] then some v else none
  | none => none

/-! ## Error taxonomy (`errors.ts`, the kinds the extractor can raise) -/

/-- The failure kinds of `CouldNotRetrieveTranscriptReason` that are relevant
to the core (the full enum has further kinds raised by the excluded
HTTP/orchestration layers). -/
inductive RetrieveReason where
  | youTubeDataUnparsable
  | videoUnavailable
  | youTubeRequestFailed
  deriving DecidableEq

/-- A `CouldNotRetrieveTranscript` error: a kind tag plus the caller-supplied
context identifier (video id). -/
structure RetrieveErr where
  videoId : Str
  reason : RetrieveReason
  deriving DecidableEq

/-- `CouldNotRetrieveTranscript.youTubeDataUnparsable(videoId)`. -/
def dataUnparsable (vid : Str) : RetrieveErr :=
  { videoId := vid, reason := .youTubeDataUnparsable }

/-! ## The embedded-object extractor (`js-var-parser.ts`) -/

/-- The double-quote character. -/
def quoteD : Char := Char.ofNat 34

/-- The single-quote character. -/
def quoteS : Char := Char.ofNat 39

/-- The backslash character. -/
def bslash : Char := Char.ofNat 92

/-- The scanner state of `JsVarParser.parseCharByChar`: brace depth,
in-string flag, pending-escape flag, and active quote character
(`stringChar === ''` in the source is modelled as `none`). -/
structure ScanSt where
  braceCount : Int
  inString : Bool
  escapeNext : Bool
  stringChar : Option Char

/-- The scanner's initial state (`braceCount = 0`, not in a string). -/
def scanInit : ScanSt :=
  { braceCount := 0, inString := false, escapeNext := false, stringChar := none }

/-- The brace-matching scan of `parseCharByChar` (source lines 72–104),
transcribed branch for branch: a pending escape consumes the character; a
backslash — the check precedes the in-string test, so it applies inside
and outside strings alike — sets the pending escape; outside a string a
quote opens a string, `{` increments and `}` decrements the depth, depth 0
stopping the scan; inside a string only the matching quote character is
significant.  Returns the offset of the stopping `}` relative to the start
of the scanned text (the source's `endIndex - startIndex`). -/
def scanObj : Str → ScanSt → Option Nat
  | [], _ => none
  | c :: rest, st =>
    if st.escapeNext then
      (scanObj rest { st with escapeNext := false }).map (· + 1)
    else if c = bslash then
      (scanObj rest { st with escapeNext := true }).map (· + 1)
    else if !st.inString then
      if c = quoteD ∨ c = quoteS then
        (scanObj rest { st with inString := true, stringChar := some c }).map (· + 1)
      else if c = '{' then
        (scanObj rest { st with braceCount := st.braceCount + 1 }).map (· + 1)
      else if c = '}' then
        if st.braceCount - 1 = 0 then some 0
        else (scanObj rest { st with braceCount := st.braceCount - 1 }).map (· + 1)
      else (scanObj rest st).map (· + 1)
    else
      if some c = st.stringChar then
        (scanObj rest { st with inString := false, stringChar := none }).map (· + 1)
      else (scanObj rest st).map (· + 1)

/-- The scanner exactly as the claim words it (second definition for the
refinement comparison): *inside a string*, only a backslash toggles the
pending-escape flag and a matching unescaped quote closes the string;
*outside a string*, `{` increments depth, `}` decrements depth and depth 0
marks the end — so outside a string a backslash is an ordinary inert
character. -/
def scanClaimC1 : Str → Int → Bool → Option Char → Bool → Option Nat
  | [], _, _, _, _ => none
  | c :: rest, depth, inStr, quote, pendingEscape =>
    if inStr then
      if pendingEscape then
        (scanClaimC1 rest depth inStr quote false).map (· + 1)
      else if c = bslash then
        (scanClaimC1 rest depth inStr quote true).map (· + 1)
      else if some c = quote then
        (scanClaimC1 rest depth false none false).map (· + 1)
      else (scanClaimC1 rest depth inStr quote pendingEscape).map (· + 1)
    else
      if c = quoteD ∨ c = quoteS then
        (scanClaimC1 rest depth true (some c) false).map (· + 1)
      else if c = '{' then
        (scanClaimC1 rest (depth + 1) inStr quote pendingEscape).map (· + 1)
      else if c = '}' then
        if depth - 1 = 0 then some 0
        else (scanClaimC1 rest (depth - 1) inStr quote pendingEscape).map (· + 1)
      else (scanClaimC1 rest depth inStr quote pendingEscape).map (· + 1)

/-- The scanner as the amended claim words it: a pending escape consumes one
character verbatim; a backslash — whether inside or outside a string — sets
the pending-escape flag; otherwise, inside a string only the matching quote
(closing it) is significant, and outside a string a quote opens a string,
`{` increments depth, `}` decrements depth, and reaching depth 0 marks the
inclusive end offset. -/
def scanAmendedC1 : Str → Int → Bool → Option Char → Bool → Option Nat
  | [], _, _, _, _ => none
  | c :: rest, depth, inStr, quote, pendingEscape =>
    if pendingEscape then
      (scanAmendedC1 rest depth inStr quote false).map (· + 1)
    else if c = bslash then
      (scanAmendedC1 rest depth inStr quote true).map (· + 1)
    else if inStr then
      if some c = quote then
        (scanAmendedC1 rest depth false none false).map (· + 1)
      else (scanAmendedC1 rest depth inStr quote pendingEscape).map (· + 1)
    else
      if c = quoteD ∨ c = quoteS then
        (scanAmendedC1 rest depth true (some c) false).map (· + 1)
      else if c = '{' then
        (scanAmendedC1 rest (depth + 1) inStr quote pendingEscape).map (· + 1)
      else if c = '}' then
        if depth - 1 = 0 then some 0
        else (scanAmendedC1 rest (depth - 1) inStr quote pendingEscape).map (· + 1)
      else (scanAmendedC1 rest depth inStr quote pendingEscape).map (· + 1)

/-- The marker `"var " + varName` (source line 45). -/
def varMarker (name : Str) : Str := str "var " ++ name

/-- `html.split(marker)` keeps only `parts[1]` in the source: the text
between the first occurrence of `marker` and the following occurrence (or
the end of the string).  `none` when the marker does not occur, i.e.
`parts.length <= 1`.  (JavaScript's behaviour for an empty separator is not
reproduced; the markers used are nonempty for the nonempty variable names
all theorems assume.) -/
def part1After (marker s : Str) : Option Str :=
  match findSubIdx marker s with
  | none => none
  | some i =>
    let rest := s.drop (i + marker.length)
    match findSubIdx marker rest with
    | none => some rest
    | some j => some (rest.take j)

/-- `JsVarParser.parseCharByChar`: split on `"var " + name` (falling back to
the bare name), find the first `{` after the marker, scan to the matching
brace, and strict-JSON-parse the bounded substring.  In addition to the
parsed value the model returns the extracted object-literal substring
(which the source computes as `jsonStr` and discards after parsing), so
that claims about the extracted substring can be stated. -/
def parseCharByChar (html name vid : Str) : Except RetrieveErr (Str × Json) :=
  let afterVar? :=
    match part1After (varMarker name) html with
    | some a => some a
    | none => part1After name html
  match afterVar? with
  | none => .error (dataUnparsable vid)
  | some afterVar =>
    match findCharIdx (fun c => c = '{') afterVar with
    | none => .error (dataUnparsable vid)
    | some openIdx =>
      match scanObj (afterVar.drop openIdx) scanInit with
      | none => .error (dataUnparsable vid)
      | some k =>
        let jsonStr := (afterVar.drop openIdx).take (k + 1)
        match jsonParse jsonStr with
        | some v => .ok (jsonStr, v)
        | none => .error (dataUnparsable vid)

/-! ### The regex fallback (`JsVarParser.parseWithRegex`)

The three patterns
`var\s+NAME\s*=\s*({[^}]*(?:{[^}]*}[^}]*)*});`,
`NAME\s*=\s*({[^}]*(?:{[^}]*}[^}]*)*});` and
`"NAME"\s*:\s*({[^}]*(?:{[^}]*}[^}]*)*})`
are realized as direct matchers.  The interpolated variable name is taken
literally, which coincides with `new RegExp` semantics for the identifier
names (no regex metacharacters, no whitespace) that every theorem below
assumes; the quantifiers `\s+`, `\s*` then match maximal runs, since the
character required after each run can never be a whitespace character. -/

/-- JavaScript's `\s` character class. -/
def isWsJsChar (c : Char) : Bool :=
  c = ' ' ∨ c = '\t' ∨ c = '\n' ∨ c.toNat = 11 ∨ c.toNat = 12 ∨ c = '\r' ∨
  c.toNat = 0xa0 ∨ c.toNat = 0x1680 ∨ (0x2000 ≤ c.toNat ∧ c.toNat ≤ 0x200a) ∨
  c.toNat = 0x2028 ∨ c.toNat = 0x2029 ∨ c.toNat = 0x202f ∨ c.toNat = 0x205f ∨
  c.toNat = 0x3000 ∨ c.toNat = 0xfeff

/-- Length of the maximal leading `\s` run. -/
def wsRun (s : Str) : Nat := (s.takeWhile isWsJsChar).length

/-- The interior condition of the object-literal pattern
`{[^}]*(?:{[^}]*}[^}]*)*}`: a text is a possible interior exactly when every
`}` in it is preceded by some `{` later than the previous `}` (each `}`
closes one single-level group). -/
def interiorOkAux : Str → Bool → Bool
  | [], _ => true
  | c :: rest, sawOpen =>
    if c = '{' then interiorOkAux rest true
    else if c = '}' then sawOpen && interiorOkAux rest false
    else interiorOkAux rest sawOpen

/-- Interior condition starting with no `{` seen. -/
def interiorOk (w : Str) : Bool := interiorOkAux w false

/-- Whether position `j` of `s` can end the object-literal group that starts
at position 0 (which must hold a `{`), with a `;` required right after when
`needSemi` is set. -/
def objEndOk (needSemi : Bool) (s : Str) (j : Nat) : Bool :=
  match s.drop j with
  | c :: tail =>
    c = '}' && interiorOk ((s.take j).drop 1) &&
      (if needSemi then
        match tail with
        | d :: _ => d = ';'
        | [] => false
      else true)
  | [] => false

/-- Match the object-literal group at the start of `s` (the candidate end
positions are tried in the backtracking engine's first-attempt order,
nearest first; every input studied here has at most one viable end). -/
def matchObjAt (needSemi : Bool) (s : Str) : Option Str :=
  match s with
  | '{' :: _ =>
    ((List.range s.length).find? (objEndOk needSemi s)).map (fun j => s.take (j + 1))
  | _ => none

/-- Attempt pattern 1, `var\s+NAME\s*=\s*(OBJ);`, at the start of `s`. -/
def p1At (name s : Str) : Option Str :=
  if (str "var").isPrefixOf s then
    let s1 := s.drop 3
    let w := wsRun s1
    if w = 0 then none
    else
      let s2 := s1.drop w
      if name.isPrefixOf s2 then
        let s3 := s2.drop name.length
        match s3.drop (wsRun s3) with
        | '=' :: s5 => matchObjAt true (s5.drop (wsRun s5))
        | _ => none
      else none
  else none

/-- Attempt pattern 2, `NAME\s*=\s*(OBJ);`, at the start of `s`. -/
def p2At (name s : Str) : Option Str :=
  if name.isPrefixOf s then
    let s1 := s.drop name.length
    match s1.drop (wsRun s1) with
    | '=' :: s2 => matchObjAt true (s2.drop (wsRun s2))
    | _ => none
  else none

/-- Attempt pattern 3, `"NAME"\s*:\s*(OBJ)`, at the start of `s`. -/
def p3At (name s : Str) : Option Str :=
  if (quoteD :: (name ++ [quoteD])).isPrefixOf s then
    let s1 := s.drop (name.length + 2)
    match s1.drop (wsRun s1) with
    | ':' :: s2 => matchObjAt false (s2.drop (wsRun s2))
    | _ => none
  else none

/-- Leftmost match of a pattern over the whole text (`String.prototype.match`
without `g`: the earliest start position that yields a match wins). -/
def firstMatch (patAt : Str → Option Str) (s : Str) : Option Str :=
  (List.range (s.length + 1)).findSome? (fun t => patAt (s.drop t))

/-- JavaScript's `.` (without the `s` flag): any character except a line
terminator. -/
def isDotChar (c : Char) : Bool :=
  ¬(c = '\n' ∨ c = '\r' ∨ c.toNat = 0x2028 ∨ c.toNat = 0x2029)

/-- After an opening `'`, match the content of `/'([^'\\]*(\\.[^'\\]*)*)'/`:
runs of characters other than `'` and `\`, interleaved with two-character
escape sequences, up to the closing `'`.  Returns the content (escape pairs
kept verbatim, as in the `"$1"` replacement) and the text after the closing
quote. -/
def nqContent : Nat → Str → Option (Str × Str)
  | 0, _ => none
  | fuel + 1, s =>
    let plain := s.takeWhile (fun c => ¬(c = quoteS ∨ c = bslash))
    match s.dropWhile (fun c => ¬(c = quoteS ∨ c = bslash)) with
    | [] => none
    | c :: r =>
      if c = quoteS then some (plain, r)
      else
        match r with
        | [] => none
        | d :: r2 =>
          if isDotChar d then
            (nqContent fuel r2).map (fun pr => (plain ++ c :: d :: pr.1, pr.2))
          else none

/-- The global replacement
`jsonStr.replace(/'([^'\\]*(\\.[^'\\]*)*)'/g, '"$1"')` (source line 143):
scan left to right; at each `'`, if the pattern matches, emit the content
between double quotes and continue after the match, else keep the
character. -/
def normQuotes : Nat → Str → Str
  | 0, s => s
  | fuel + 1, s =>
    match s with
    | [] => []
    | c :: rest =>
      if c = quoteS then
        match nqContent (rest.length + 1) rest with
        | some (content, after) =>
          quoteD :: (content ++ quoteD :: normQuotes fuel after)
        | none => c :: normQuotes fuel rest
      else c :: normQuotes fuel rest

/-- Quote normalization over a whole string. -/
def normQuotesAll (s : Str) : Str := normQuotes (s.length + 1) s

/-- `JsVarParser.parseWithRegex`: try the three patterns in order; for the
first (leftmost) match of each, normalize single quotes and strict-JSON
parse; a parse failure moves on to the next pattern; if all patterns are
exhausted, fail with the data-unparsable kind.  As for the scan strategy,
the matched group `match[1]` is returned alongside the value. -/
def parseWithRegex (html name vid : Str) : Except RetrieveErr (Str × Json) :=
  let pats : List (Str → Option Str) := [p1At name, p2At name, p3At name]
  match pats.findSome? (fun patAt =>
    match firstMatch patAt html with
    | some m =>
      match jsonParse (normQuotesAll m) with
      | some v => some (m, v)
      | none => none
    | none => none) with
  | some r => .ok r
  | none => .error (dataUnparsable vid)

/-- `JsVarParser.parse`: the character-by-character strategy first, the regex
fallback on any failure. -/
def jsVarParse (html name vid : Str) : Except RetrieveErr (Str × Json) :=
  match parseCharByChar html name vid with
  | .ok r => .ok r
  | .error _ => parseWithRegex html name vid

/-- Identifier characters: ASCII letters, digits, underscore. -/
def isIdentChar (c : Char) : Bool :=
  ('a' ≤ c ∧ c ≤ 'z') ∨ ('A' ≤ c ∧ c ≤ 'Z') ∨ isDig c ∨ c = '_'

/-- A well-behaved variable name: nonempty and made of identifier
characters, so that interpolating it into the fallback's `RegExp` patterns
treats it literally. -/
def IsIdent (name : Str) : Prop :=
  name ≠ [] ∧ name.all isIdentChar = true

/-! ## The caption-XML decoder (`transcript-parser.ts`) -/

/-- The result of `parseFloat`: an exact rational for finite doubles (the
decimal literals studied here are exact), or an infinity; `none` stands for
`NaN`. -/
inductive JsNum where
  | finite (q : NRat)
  | posInf
  | negInf
  deriving DecidableEq

/-- JavaScript `parseFloat`: skip leading whitespace, then take the longest
prefix that is a signed decimal literal (`Infinity`, digits with optional
fraction, optional well-formed exponent); `none` (`NaN`) when no prefix
qualifies. -/
def jsParseFloat (s : Str) : Option JsNum :=
  let s1 := s.dropWhile isWsJsChar
  let (neg, s2) :=
    match s1 with
    | '-' :: r => (true, r)
    | '+' :: r => (false, r)
    | _ => (false, s1)
  if (str "Infinity").isPrefixOf s2 then
    some (if neg then .negInf else .posInf)
  else
    let ids := s2.takeWhile isDig
    let s3 := s2.dropWhile isDig
    let (fds, s4) :=
      match s3 with
      | '.' :: r => (r.takeWhile isDig, r.dropWhile isDig)
      | _ => ([], s3)
    if ids = [] ∧ fds = [] then none
    else
      let (esign, eds) :=
        match s4 with
        | e :: r =>
          if e = 'e' ∨ e = 'E' then
            let (es, r2) :=
              match r with
              | '-' :: rr => (true, rr)
              | '+' :: rr => (false, rr)
              | _ => (false, r)
            let ds := r2.takeWhile isDig
            if ds = [] then (false, ([] : Str)) else (es, ds)
          else (false, [])
        | [] => (false, [])
      let mant : NRat :=
        nrAdd (nrOfNat (digitsVal ids))
          (nrDiv (nrOfNat (digitsVal fds)) { num := pow10 fds.length, den := 1 })
      let ePow : NRat := { num := pow10 (digitsVal eds), den := 1 }
      let scaled : NRat :=
        if esign then nrDiv mant ePow else nrMul mant ePow
      some (.finite (if neg then nrNeg scaled else scaled))

/-- The collapse pass of `text.replace(/\s+/g, ' ')`, carrying whether the
previous character was whitespace so each maximal whitespace run emits one
space. -/
def collapseAux : Str → Bool → Str
  | [], _ => []
  | c :: rest, prevWs =>
    if isWsJsChar c then
      if prevWs then collapseAux rest true
      else ' ' :: collapseAux rest true
    else c :: collapseAux rest false

/-- `text.replace(/\s+/g, ' ')`. -/
def collapseWs (s : Str) : Str := collapseAux s false

/-- JavaScript `String.prototype.trim`. -/
def jsTrim (s : Str) : Str :=
  ((s.dropWhile isWsJsChar).reverse.dropWhile isWsJsChar).reverse

/-- The whole whitespace cleanup of source line 119:
`text.replace(/\s+/g, ' ').trim()`. -/
def cleanText (s : Str) : Str := jsTrim (collapseWs s)

/-! ### Inline markup as an AST

Cheerio parses each segment's inner markup into a DOM; the passes the
decoder runs over that DOM are embedded over this AST.  A mutual inductive
is used (instead of nesting `List`) so that all recursion over it is
structural and kernel-reducible. -/

mutual

/-- A DOM node: a text node or an element with attributes and children. -/
inductive XNode where
  | text (s : Str) : XNode
  | elem (tag : Str) (attrs : List (Str × Str)) (children : XNodes) : XNode

/-- A sequence of sibling DOM nodes. -/
inductive XNodes where
  | nil : XNodes
  | cons (head : XNode) (tail : XNodes) : XNodes

end

/-- First value of the named attribute (`$element.attr(name)`). -/
def getAttr (attrs : List (Str × Str)) (name : Str) : Option Str :=
  (attrs.find? (fun p => p.1 = name)).map Prod.snd

mutual

/-- The text content of a node (`$element.text()`). -/
def textContent : XNode → Str
  | .text s => s
  | .elem _ _ ch => textContentL ch

/-- The text content of a sibling sequence. -/
def textContentL : XNodes → Str
  | .nil => []
  | .cons n t => textContent n ++ textContentL t

end

/-- `String.prototype.replace` with a literal pattern and a string
replacement: substitute the first occurrence, interpreting the JavaScript
replacement patterns `$$`, `$&`, `` $` `` and `$'` (there are no capture
groups, so `$n` stays literal). -/
def applyRepl (pat pre suf : Str) : Str → Str
  | [] => []
  | c :: rest =>
    if c = '$' then
      match rest with
      | [] => [c]
      | d :: r =>
        if d = '$' then '$' :: applyRepl pat pre suf r
        else if d = '&' then pat ++ applyRepl pat pre suf r
        else if d = Char.ofNat 96 then pre ++ applyRepl pat pre suf r
        else if d = quoteS then suf ++ applyRepl pat pre suf r
        else c :: d :: applyRepl pat pre suf r
    else c :: applyRepl pat pre suf rest

/-- `s.replace(pat, rep)` for string `pat` and `rep`: only the first
occurrence is replaced. -/
def replaceFirstJs (pat rep s : Str) : Str :=
  match findSubIdx pat s with
  | none => s
  | some i =>
    s.take i ++ applyRepl pat (s.take i) (s.drop (i + pat.length)) rep ++
      s.drop (i + pat.length)

/-- The link formatting of both render modes (source lines 149–151 and
173–175): `linkFormat.replace('{text}', linkText).replace('{url}', href)` —
two sequential first-occurrence replacements, `{text}` first. -/
def formatLink (fmt linkText href : Str) : Str :=
  replaceFirstJs (str "{url}") href (replaceFirstJs (str "{text}") linkText fmt)

/-- Template substitution exactly as the claim words it: each placeholder
`{text}` is replaced by the anchor text and each `{url}` by the href,
independently, in one pass over the template. -/
def substTemplate : Nat → Str → Str → Str → Str
  | 0, s, _, _ => s
  | fuel + 1, s, t, u =>
    match s with
    | [] => []
    | c :: rest =>
      if (str "{text}").isPrefixOf s then t ++ substTemplate fuel (s.drop 6) t u
      else if (str "{url}").isPrefixOf s then u ++ substTemplate fuel (s.drop 5) t u
      else c :: substTemplate fuel rest t u

/-- One-pass claim-style template substitution over a whole template. -/
def substTemplateAll (fmt t u : Str) : Str := substTemplate fmt.length fmt t u

mutual

/-- The anchor pass (`$('a').each(...)` in both render modes): an anchor
with a truthy (present, nonempty) `href` and nonempty text content is
replaced by the formatted link as a text node; any other anchor is replaced
by its bare text content; other elements are traversed. -/
def anchorRepl (fmt : Str) : XNode → XNode
  | .text s => .text s
  | .elem tag attrs ch =>
    if tag = str "a" then
      let t := textContentL ch
      match getAttr attrs (str "href") with
      | some h => if h ≠ [] ∧ t ≠ [] then .text (formatLink fmt t h) else .text t
      | none => .text t
    else .elem tag attrs (anchorReplL fmt ch)

/-- The anchor pass over a sibling sequence. -/
def anchorReplL (fmt : Str) : XNodes → XNodes
  | .nil => .nil
  | .cons n t => .cons (anchorRepl fmt n) (anchorReplL fmt t)

end

/-- `TranscriptParser.htmlToPlainText`: the anchor pass, then the text
content of everything (`$.text()` strips all remaining tags, keeping their
text). -/
def plainRender (fmt : Str) (nodes : XNodes) : Str :=
  textContentL (anchorReplL fmt nodes)

/-- `TranscriptParser.FORMATTING_TAGS` (source lines 15–28): the allow-list
joined into the removal selector of `processWithFormatting`.  Since that
pass has no effect on the output (see `processFmt`), the list does not
influence any rendered text. -/
def FORMATTING_TAGS : List Str :=
  [str "strong", str "em", str "b", str "i", str "mark", str "small",
   str "del", str "ins", str "sub", str "sup", str "span", str "a"]

/-- Entity-escape a text node for serialization. -/
def escText (s : Str) : Str :=
  s.flatMap (fun c =>
    if c = '&' then str "&amp;"
    else if c = '<' then str "&lt;"
    else if c = '>' then str "&gt;"
    else [c])

/-- Entity-escape an attribute value for serialization. -/
def escAttrVal (s : Str) : Str :=
  s.flatMap (fun c =>
    if c = '&' then str "&amp;"
    else if c = quoteD then str "&quot;"
    else [c])

/-- Serialize an attribute list. -/
def serializeAttrs (attrs : List (Str × Str)) : Str :=
  (attrs.map (fun p => ' ' :: (p.1 ++ '=' :: quoteD :: (escAttrVal p.2 ++ [quoteD])))).flatten

mutual

/-- Serialize a node back to markup (`.html()`). -/
def serializeNode : XNode → Str
  | .text s => escText s
  | .elem tag attrs ch =>
    '<' :: (tag ++ serializeAttrs attrs) ++ '>' :: serializeNodes ch ++
      ('<' :: '/' :: tag ++ ['>'])

/-- Serialize a sibling sequence back to markup. -/
def serializeNodes : XNodes → Str
  | .nil => []
  | .cons n t => serializeNode n ++ serializeNodes t

end

/-- `TranscriptParser.processWithFormatting` over the parsed fragment: the
anchor pass, then the wrapper's inner markup.  The removal pass
`$('*').not('div, ' + FORMATTING_TAGS.join(', ')).each((_, element) =>
$element.replaceWith($element.html() || $element.text()))` (source lines
176–186) contributes nothing to the result: `load` wraps the fragment in a
full document, so the `$('*')` snapshot — taken once, in document order —
begins with the `<html>` scaffolding element, which the selector does not
exempt.  Its `replaceWith` re-parses its inner markup (the scaffolding tags
dropped, the already anchor-processed wrapper `<div>` reproduced unchanged)
and splices the fresh nodes in place of `<html>`, detaching `<head>`,
`<body>`, the old wrapper `<div>` and every content element from the
document.  Each later snapshot entry is then visited stale: its parent
chain leads into the detached old tree, so its `replaceWith` mutates only
that dead tree.  The final `$('div').html()` therefore serializes the
anchor-processed content with every element, allow-listed or not, retained
verbatim. -/
def processFmt (fmt : Str) (nodes : XNodes) : Str :=
  serializeNodes (anchorReplL fmt nodes)

/-! ### Entity decoding and fragment parsing

The source delegates both to cheerio (`decodeHtmlEntities` round-trips the
text through a DOM load, and both render modes `load` the segment's inner
markup); cheerio is an external dependency, so these two bridges are
modelled from the spec. -/

/-- Recognize one entity body (the text between `&` and `;`): the named
entities the spec lists plus decimal and hexadecimal numeric entities. -/
def entityMatch (s : Str) : Option (Str × Str) :=
  let notBody := fun (c : Char) => c = ';' ∨ c = '&' ∨ isWsJsChar c
  let body := s.takeWhile (fun c => ¬ notBody c)
  match s.drop body.length with
  | ';' :: after =>
    if body = str "amp" then some (['&'], after)
    else if body = str "lt" then some (['<'], after)
    else if body = str "gt" then some (['>'], after)
    else if body = str "quot" then some ([quoteD], after)
    else if body = str "apos" then some ([quoteS], after)
    else
      match body with
      | '#' :: ds =>
        let (hex, ds2) :=
          match ds with
          | 'x' :: r => (true, r)
          | 'X' :: r => (true, r)
          | _ => (false, ds)
        let ok := ds2 ≠ [] ∧ (if hex then ds2.all (fun c => (hexVal c).isSome)
                              else ds2.all isDig)
        if ok then
          let n := if hex then ds2.foldl (fun a c => a * 16 + (hexVal c).getD 0) 0
                   else digitsVal ds2
          if n.isValidChar then some ([Char.ofNat n], after) else none
        else none
      | _ => none
  | _ => none

/-- Modelled from the spec: the source's `decodeHtmlEntities` round-trips
the text through a cheerio DOM load and falls back to a manual entity
table; the spec (§4.2 step 4, §9) pins the behaviour down as decoding the
named entities `amp lt gt quot apos #39` at minimum plus numeric entities,
with unknown `&name;`/`&#N;` sequences passed through unchanged. -/
def decodeEntities : Nat → Str → Str
  | 0, s => s
  | _ + 1, [] => []
  | fuel + 1, c :: rest =>
    if c = '&' then
      match entityMatch rest with
      | some (d, after) => d ++ decodeEntities fuel after
      | none => c :: decodeEntities fuel rest
    else c :: decodeEntities fuel rest

/-- Entity decoding over a whole string. -/
def decodeEntitiesAll (s : Str) : Str := decodeEntities s.length s

/-- Characters allowed in a tag name. -/
def isTagChar (c : Char) : Bool :=
  ('a' ≤ c ∧ c ≤ 'z') ∨ ('A' ≤ c ∧ c ≤ 'Z') ∨ isDig c ∨ c = '-' ∨ c = '_'

/-- Modelled from the spec: attribute parsing inside a tag as the markup
parser the source delegates to cheerio performs it — whitespace-separated
`name`, `name=value`, `name="value"` or `name='value'` pairs up to the
closing `>` (or `/>`, reported via the returned flag). -/
def parseAttrsF : Nat → Str → List (Str × Str) × Str × Bool
  | 0, s => ([], s, false)
  | fuel + 1, s =>
    let s1 := s.dropWhile isWsJsChar
    match s1 with
    | [] => ([], [], false)
    | '>' :: r => ([], r, false)
    | '/' :: r =>
      match r with
      | '>' :: r2 => ([], r2, true)
      | _ => parseAttrsF fuel r
    | _ =>
      let notName := fun (c : Char) => isWsJsChar c ∨ c = '=' ∨ c = '>' ∨ c = '/'
      let aname := s1.takeWhile (fun c => ¬ notName c)
      if aname = [] then parseAttrsF fuel (s1.drop 1)
      else
        let s2 := (s1.drop aname.length).dropWhile isWsJsChar
        match s2 with
        | '=' :: s3 =>
          let s4 := s3.dropWhile isWsJsChar
          match s4 with
          | c :: r =>
            if c = quoteD ∨ c = quoteS then
              let v := r.takeWhile (fun d => ¬ d = c)
              let rem := (r.drop v.length).drop 1
              let (attrsRest, rem2, sc) := parseAttrsF fuel rem
              ((aname, v) :: attrsRest, rem2, sc)
            else
              let notVal := fun (d : Char) => isWsJsChar d ∨ d = '>'
              let v := s4.takeWhile (fun d => ¬ notVal d)
              let (attrsRest, rem2, sc) := parseAttrsF fuel (s4.drop v.length)
              ((aname, v) :: attrsRest, rem2, sc)
          | [] => ([(aname, [])], [], false)
        | _ =>
          let (attrsRest, rem2, sc) := parseAttrsF fuel s2
          ((aname, []) :: attrsRest, rem2, sc)

/-- Modelled from the spec: a lenient inline-markup fragment parse standing
in for the cheerio `load` both render modes apply to a segment's inner
markup.  Parses text runs, paired `<tag ...>...</tag>` elements and
self-closing `<tag .../>` elements; a `</` sequence stops the current
sibling run (consumed by the enclosing element).  Returns the parsed
siblings and the unconsumed remainder. -/
def fragParseAux : Nat → Str → XNodes × Str
  | 0, s => (.nil, s)
  | fuel + 1, s =>
    match s with
    | [] => (.nil, [])
    | '<' :: rest =>
      match rest with
      | '/' :: _ => (.nil, s)
      | _ =>
        let tname := rest.takeWhile isTagChar
        if tname = [] then
          let (ns, rem) := fragParseAux fuel rest
          (.cons (.text ['<']) ns, rem)
        else
          let afterName := rest.drop tname.length
          let (attrs, rem1, selfC) := parseAttrsF (afterName.length + 1) afterName
          if selfC then
            let (sibs, rem2) := fragParseAux fuel rem1
            (.cons (.elem tname attrs .nil) sibs, rem2)
          else
            let (children, rem2) := fragParseAux fuel rem1
            let rem3 :=
              match rem2 with
              | '<' :: '/' :: r =>
                if tname.isPrefixOf r then
                  match r.drop tname.length with
                  | '>' :: r2 => r2
                  | _ => rem2
                else rem2
              | _ => rem2
            let (sibs, rem4) := fragParseAux fuel rem3
            (.cons (.elem tname attrs children) sibs, rem4)
    | _ =>
      let t := s.takeWhile (fun c => ¬ c = '<')
      let (ns, rem) := fragParseAux fuel (s.drop t.length)
      (.cons (.text t) ns, rem)

/-- Fragment parse of a whole string. -/
def fragParseAll (s : Str) : XNodes := (fragParseAux (s.length + 2) s).1

/-! ### Decoder configuration, per-segment processing, and the full parse -/

/-- The decoder's configuration (`RenderConfig` in the spec): the
formatting flag and the link template. -/
structure TranscriptCfg where
  preserveFormatting : Bool
  linkFormat : Str
  deriving DecidableEq

/-- The constructor defaults (`preserveFormatting = false`,
`linkFormat = '{text} ({url})'`). -/
def defaultCfg : TranscriptCfg :=
  { preserveFormatting := false, linkFormat := str "{text} ({url})" }

/-- `TranscriptParser.withConfig`: construction-time validation that the
link template contains both placeholders (source lines 36–41). -/
def withConfig (pf : Bool) (lf : Str) : Except Str TranscriptCfg :=
  if ¬ (hasSub (str "{text}") lf) ∨ ¬ (hasSub (str "{url}") lf) then
    .error (str "Link format must contain {text} and {url} placeholders")
  else .ok { preserveFormatting := pf, linkFormat := lf }

/-- Steps 3–5 of per-segment processing: decode entities in the inner
markup, then render in the configured mode. -/
def renderText (cfg : TranscriptCfg) (inner : Str) : Str :=
  let nodes := fragParseAll (decodeEntitiesAll inner)
  if cfg.preserveFormatting then processFmt cfg.linkFormat nodes
  else plainRender cfg.linkFormat nodes

/-- One caption segment as cheerio hands it to the loop of source lines
87–129: the `start` and `dur` attribute values (absent attributes are
`none`) and the inner markup. -/
structure Segment where
  start? : Option Str
  dur? : Option Str
  inner : Str
  deriving DecidableEq

/-- A produced transcript snippet (`FetchedTranscriptSnippet`). -/
structure Snippet where
  text : Str
  start : JsNum
  duration : JsNum
  deriving DecidableEq

/-- JavaScript falsiness of `$element.attr(...)`: `undefined` or the empty
string (`if (!startStr || !durStr)`). -/
def attrFalsy : Option Str → Bool
  | none => true
  | some s => s.isEmpty

/-- The body of the per-segment loop (source lines 87–129), parametrized by
the composite text-rendering step (entity decoding plus the configured
render mode): skip when `start`/`dur` is falsy or parses to `NaN`;
otherwise clean whitespace and drop the segment when the text is empty. -/
def processSegment (render : Str → Str) (seg : Segment) : Option Snippet :=
  if attrFalsy seg.start? ∨ attrFalsy seg.dur? then none
  else
    match jsParseFloat (seg.start?.getD []), jsParseFloat (seg.dur?.getD []) with
    | some st, some du =>
      let t := cleanText (render seg.inner)
      if t = [] then none
      else some { text := t, start := st, duration := du }
    | _, _ => none

/-- The `$('text').each` loop: fold over the segments in document order,
pushing each produced snippet. -/
def parseSegmentsFold (render : Str → Str) (segs : List Segment) : List Snippet :=
  segs.foldl (fun acc seg =>
    match processSegment render seg with
    | some sn => acc ++ [sn]
    | none => acc) []

/-- One match of the pre-check regex `/<text[^>]*>/g`: a literal `<text`
followed by the nearest `>`; scanning resumes after that `>`.  (When no `>`
follows a `<text`, no later start can match either, since the character
class cannot cross a `>` that does not exist.) -/
def countTextOpen : Nat → Str → Nat
  | 0, _ => 0
  | fuel + 1, s =>
    match s with
    | [] => 0
    | _ :: rest =>
      if (str "<text").isPrefixOf s then
        let after := s.drop 5
        match findCharIdx (fun c => c = '>') after with
        | some j => 1 + countTextOpen fuel (after.drop (j + 1))
        | none => 0
      else countTextOpen fuel rest

/-- `(rawData.match(/<text[^>]*>/g) || []).length`. -/
def countTextOpenAll (s : Str) : Nat := countTextOpen s.length s

/-- `(rawData.match(/<\/text>/g) || []).length`. -/
def countTextCloseAll (s : Str) : Nat := countSub (str "</text>") s

/-- Modelled from the spec: whether the document has a `transcript` element
(the `$('transcript').length === 0` check after the cheerio load): an
occurrence of `<transcript` followed by a name boundary. -/
def hasTransElem (raw : Str) : Bool :=
  (List.range (raw.length + 1)).any (fun i =>
    (str "<transcript").isPrefixOf (raw.drop i) &&
      (match raw.drop (i + 11) with
       | [] => true
       | c :: _ => isWsJsChar c || c = '>' || c = '/'))

/-- Modelled from the spec: the segment elements of the document in
document order, as the cheerio XML load hands them to `$('text').each` —
each `<text ...>` element (name ended at a boundary) with its attributes
and its inner markup up to the matching `</text>` (empty for self-closing
elements). -/
def extractSegments : Nat → Str → List Segment
  | 0, _ => []
  | fuel + 1, s =>
    match s with
    | [] => []
    | _ :: rest =>
      let boundary :=
        match s.drop 5 with
        | [] => false
        | c :: _ => isWsJsChar c || c = '>' || c = '/'
      if (str "<text").isPrefixOf s && boundary then
        let afterName := s.drop 5
        let (attrs, rem1, selfC) := parseAttrsF (afterName.length + 1) afterName
        let mk := fun (inner : Str) =>
          ({ start? := getAttr attrs (str "start"),
             dur? := getAttr attrs (str "dur"), inner := inner } : Segment)
        if selfC then mk [] :: extractSegments fuel rem1
        else
          match findSubIdx (str "</text>") rem1 with
          | some j => mk (rem1.take j) :: extractSegments fuel (rem1.drop (j + 7))
          | none => [mk rem1]
      else extractSegments fuel rest

/-- Segment extraction over a whole document. -/
def extractSegmentsAll (raw : Str) : List Segment :=
  extractSegments raw.length raw

/-- `TranscriptParser.parse`: the structural pre-checks (root markers
present, balanced `<text>`/`</text>` counts), the transcript-element check,
then the per-segment loop.  Failures are `Except.error` with the message of
the `Error` the source throws. -/
def transcriptParse (cfg : TranscriptCfg) (raw : Str) : Except Str (List Snippet) :=
  if ¬ (hasSub (str "<transcript") raw ∧ hasSub (str "</transcript>") raw) then
    .error (str "Invalid transcript XML structure")
  else if countTextOpenAll raw ≠ countTextCloseAll raw then
    .error (str "Malformed XML: mismatched text tags")
  else if ¬ hasTransElem raw then
    .error (str "No transcript element found in XML")
  else .ok (parseSegmentsFold (renderText cfg) (extractSegmentsAll raw))

/-! ## Predicates and concrete inputs used by the theorems -/

/-- The timing-based skip condition of the per-segment loop: `start` or
`dur` is falsy (absent or empty) or parses to `NaN`. -/
def timingBad (seg : Segment) : Bool :=
  attrFalsy seg.start? || attrFalsy seg.dur? ||
    (jsParseFloat (seg.start?.getD [])).isNone ||
    (jsParseFloat (seg.dur?.getD [])).isNone

/-- A string has no run of two or more consecutive whitespace characters. -/
def NoDoubleWs (s : Str) : Prop :=
  List.Chain' (fun a b => ¬ (isWsJsChar a = true ∧ isWsJsChar b = true)) s

/-- A string has no leading and no trailing whitespace. -/
def TrimmedWs (s : Str) : Prop :=
  (∀ c, s.head? = some c → isWsJsChar c = false) ∧
  (∀ c, s.getLast? = some c → isWsJsChar c = false)

/-- Number of top-level keys of an object value (a discriminator used to
separate concrete `Json` values). -/
def objWidth : Json → Nat
  | .obj l => l.length
  | _ => 0

/-- The claim's re-extraction input: `var NAME = ` + s + `;`. -/
def reInput (name s : Str) : Str :=
  varMarker name ++ (str " = " ++ (s ++ [';']))

/-- The scanner input `{\}}` of the C1 counterexample (built from
characters: open brace, backslash, close brace, close brace). -/
def c1Input : Str := ['{', bslash, '}', '}']

/-- The C2 document: an orphan segment lacking `start` next to a
well-formed sibling. -/
def c2Doc : Str :=
  str "<transcript><text dur=\"1.0\">orphan</text><text start=\"1.0\" dur=\"1.0\">ok</text></transcript>"

/-- The C4 document: two opening segment tags, one closing. -/
def c4Doc : Str :=
  str "<transcript><text start=\"0\" dur=\"1\">x</text><text start=\"1\" dur=\"1\"></transcript>"

/-- C5: an input without the variable marker. -/
def c5NoVar : Str := str "no such var here"

/-- C5: `var X = {"a": 1` — an unterminated object literal (the opening
brace spliced in as a character). -/
def c5Unterminated : Str := str "var X = " ++ '{' :: str "\"a\": 1"

/-- The object literal `{"a': 1, 'b": 2}` of the C9 counterexample: one
double-quoted key `a': 1, 'b` containing two single quotes (spliced in as
characters). -/
def c9obj : Str :=
  '{' :: quoteD :: 'a' :: quoteS :: (str ": 1, " ++ quoteS :: 'b' :: quoteD :: (str ": 2" ++ ['}']))

/-- The C9 original input: the first `X` occurrence is junk, so the scan
strategy fails and the regex fallback extracts `c9obj` and
quote-normalizes it before parsing. -/
def c9H : Str := str "oXo " ++ '{' :: (str " junk ; X = " ++ (c9obj ++ [';']))

/-- The value the original C9 extraction yields: quote normalization turns
`{"a': 1, 'b": 2}` into `{"a": 1, "b": 2}`, an object with two keys. -/
def c9v : Json :=
  .obj [(['a'], .num { num := 1, den := 1 }), (['b'], .num { num := 2, den := 1 })]

/-- The key `a': 1, 'b` of the re-extracted value. -/
def c9key : Str := 'a' :: quoteS :: (str ": 1, " ++ [quoteS, 'b'])

/-- The value re-extraction yields on `var X = {"a': 1, 'b": 2};`: the scan
strategy now succeeds and strict JSON parsing reads a single key. -/
def c9vRerun : Json := .obj [(c9key, .num { num := 2, den := 1 })]

/-- The C10 segment: valid `start`, `dur="1.5abc"` (numeric prefix with
trailing junk), nonempty text. -/
def c10seg : Segment :=
  { start? := some (str "0"), dur? := some (str "1.5abc"), inner := str "hi" }

/-- A sibling sequence holding one anchor with the given href and text. -/
def mkAnchor (href txt : Str) : XNodes :=
  .cons (.elem (str "a") [(str "href", href)] (.cons (.text txt) .nil)) .nil

/-- The formatting-preserving configuration with the default link
template. -/
def fmtCfg : TranscriptCfg :=
  { preserveFormatting := true, linkFormat := str "{text} ({url})" }

/-! ## Theorems -/

/-- C1 (counterexample): the claim asserts that a backslash occurring
outside any string does not alter which characters are treated as
structural; `scanClaimC1` is the scanner exactly as the claim words it.  On
the input `{\}}` the source's scanner treats the backslash as an escape,
skips the first `}` and stops at offset 3, while the claim's rules stop at
offset 2 — so the claim, as stated, is false for this input. -/
theorem C1_counterexample :
    scanObj c1Input scanInit = some 3 ∧
    scanClaimC1 c1Input 0 false none false = some 2 ∧
    scanObj c1Input scanInit ≠ scanClaimC1 c1Input 0 false none false :=
  ⟨rfl, rfl, by decide⟩

/-- C1 (amended): the scan maintains brace depth, an in-string flag, the
active quote character and a pending-escape flag; a pending escape consumes
exactly one character verbatim; a backslash — inside *or outside* a string
— sets the pending-escape flag; inside a string a matching unescaped quote
closes the string and braces never change the depth; outside a string `{`
increments depth, `}` decrements depth, and reaching depth 0 marks the
inclusive end offset.  The source's scanner agrees with these rules from
every state. -/
theorem C1_amended :
    ∀ (cs : Str) (d : Int) (ins esc : Bool) (q : Option Char),
      scanObj cs ⟨d, ins, esc, q⟩ = scanAmendedC1 cs d ins q esc := by
  intro cs
  induction cs with
  | nil => intro d ins esc q; rfl
  | cons c rest ih =>
    intro d ins esc q
    simp only [scanObj, scanAmendedC1]
    cases esc <;> cases ins <;> simp [ih]

/-- C7: constructing a decoder through `withConfig` fails exactly when the
link template lacks `{text}` or `{url}`, for every `preserveFormatting`
value; the validation is the construction itself (the result is the
configuration or the error, before any segment exists to process). -/
theorem C7_withConfig :
    ∀ (pf : Bool) (lf : Str),
      ((withConfig pf lf).isOk = true ↔
        hasSub (str "{text}") lf = true ∧ hasSub (str "{url}") lf = true) ∧
      (withConfig pf lf = .ok { preserveFormatting := pf, linkFormat := lf } ∨
        withConfig pf lf =
          .error (str "Link format must contain {text} and {url} placeholders")) := by
  intro pf lf
  by_cases h1 : hasSub (str "{text}") lf = true <;>
    by_cases h2 : hasSub (str "{url}") lf = true <;>
      simp [withConfig, h1, h2, Except.isOk, Except.toBool]

/-- C4: whenever a structural pre-check fails — a transcript root marker is
missing, or the `<text ...>`/`</text>` counts differ — the decoder returns
a parse failure and no snippets at all. -/
theorem C4_precheck_failure :
    ∀ (cfg : TranscriptCfg) (raw : Str),
      (¬ (hasSub (str "<transcript") raw = true ∧ hasSub (str "</transcript>") raw = true) ∨
        countTextOpenAll raw ≠ countTextCloseAll raw) →
      ∃ msg, transcriptParse cfg raw = .error msg := by
  intro cfg raw h
  by_cases h1 : hasSub (str "<transcript") raw = true ∧ hasSub (str "</transcript>") raw = true
  · rcases h with h | h
    · exact absurd h1 h
    · exact ⟨str "Malformed XML: mismatched text tags", by simp [transcriptParse, h1, h]⟩
  · exact ⟨str "Invalid transcript XML structure", by simp [transcriptParse, h1]⟩

/-- C4 (witness): the two-openings-one-closing document from the claim
fails the count pre-check. -/
theorem C4_witness :
    ∃ msg, transcriptParse defaultCfg c4Doc = .error msg :=
  C4_precheck_failure defaultCfg c4Doc (Or.inr (by decide))

/-- A segment with bad timing (falsy or `NaN` `start`/`dur`) produces no
snippet and raises no error. -/
theorem processSegment_of_timingBad (render : Str → Str) (seg : Segment)
    (h : timingBad seg = true) : processSegment render seg = none := by
  unfold processSegment
  by_cases h1 : attrFalsy seg.start? = true
  · simp [h1]
  · by_cases h2 : attrFalsy seg.dur? = true
    · simp [h2]
    · rw [if_neg (by simp [h1, h2])]
      rw [Bool.not_eq_true] at h1 h2
      cases hs : jsParseFloat (seg.start?.getD []) with
      | none => rfl
      | some st =>
        cases hd : jsParseFloat (seg.dur?.getD []) with
        | none => rfl
        | some du =>
          exfalso
          simp [timingBad, h1, h2, hs, hd] at h

/-- The push-loop is a `filterMap` modulo the accumulator. -/
theorem foldl_push_eq_filterMap (f : Segment → Option Snippet) :
    ∀ (segs : List Segment) (acc : List Snippet),
      segs.foldl (fun acc seg =>
        match f seg with
        | some sn => acc ++ [sn]
        | none => acc) acc = acc ++ segs.filterMap f := by
  intro segs
  induction segs with
  | nil => intro acc; simp
  | cons s rest ih =>
    intro acc
    cases hf : f s <;> simp [List.foldl_cons, hf, ih, List.filterMap_cons]

/-- The segment loop produces exactly the `filterMap` of per-segment
processing over the document-ordered segment list. -/
theorem parseSegmentsFold_eq_filterMap (render : Str → Str) (segs : List Segment) :
    parseSegmentsFold render segs = segs.filterMap (processSegment render) := by
  simpa using foldl_push_eq_filterMap (processSegment render) segs []

/-- Dropping the elements on which `f` is `none` does not change a
`filterMap`. -/
theorem filterMap_filter_of_none (f : Segment → Option Snippet) (p : Segment → Bool)
    (hp : ∀ x, p x = false → f x = none) :
    ∀ l : List Segment, l.filterMap f = (l.filter p).filterMap f := by
  intro l
  induction l with
  | nil => rfl
  | cons x rest ih =>
    cases hx : p x
    · simp [List.filter_cons, hx, hp x hx, List.filterMap_cons, ih]
    · simp [List.filter_cons, hx, List.filterMap_cons, ih]

/-- C2: segments with a missing `start`/`dur` or a non-numeric value there
are skipped without error — removing them from the document changes
nothing, so well-formed siblings still produce their snippets — and on the
claim's document exactly one snippet, with text `ok`, is produced. -/
theorem C2_skip_malformed :
    (∀ (render : Str → Str) (segs : List Segment),
        parseSegmentsFold render segs =
          parseSegmentsFold render (segs.filter (fun sg => ! timingBad sg))) ∧
    (∀ (render : Str → Str) (seg : Segment), timingBad seg = true →
        processSegment render seg = none) ∧
    transcriptParse defaultCfg c2Doc =
      .ok [{ text := str "ok", start := .finite { num := 1, den := 1 },
             duration := .finite { num := 1, den := 1 } }] := by
  refine ⟨?_, fun r seg h => processSegment_of_timingBad r seg h, ?_⟩
  · intro render segs
    rw [parseSegmentsFold_eq_filterMap, parseSegmentsFold_eq_filterMap]
    exact filterMap_filter_of_none _ _ (fun x hx => processSegment_of_timingBad render x
      (by simpa using hx)) segs
  · rfl

/-- C2 (witness): the orphan segment of the claim's document (no `start`
attribute) is skipped. -/
theorem C2_witness :
    processSegment (renderText defaultCfg)
      { start? := none, dur? := some (str "1.0"), inner := str "orphan" } = none :=
  C2_skip_malformed.2.1 (renderText defaultCfg) _ (by decide)

/-- C10: the per-segment timing skip condition is exactly `timingBad` —
absent or empty `start`/`dur`, or `parseFloat` yielding `NaN`: a bad
segment yields no snippet; a good segment is emitted (when its cleaned text
is nonempty) with exactly the parsed values, so `dur="1.5abc"` yields
duration `1.5`; an empty attribute behaves as a missing one; and the
concrete segment of the claim is emitted with duration `3/2`. -/
theorem C10_skip_condition :
    (∀ (render : Str → Str) (seg : Segment), timingBad seg = true →
        processSegment render seg = none) ∧
    (∀ (render : Str → Str) (seg : Segment) (st du : JsNum),
        jsParseFloat (seg.start?.getD []) = some st →
        jsParseFloat (seg.dur?.getD []) = some du →
        attrFalsy seg.start? = false → attrFalsy seg.dur? = false →
        processSegment render seg =
          (if cleanText (render seg.inner) = [] then none
           else some { text := cleanText (render seg.inner), start := st, duration := du })) ∧
    (∀ (render : Str → Str) (d : Option Str) (inner : Str),
        processSegment render { start? := some [], dur? := d, inner := inner } =
          processSegment render { start? := none, dur? := d, inner := inner }) ∧
    processSegment (renderText defaultCfg) c10seg =
      some { text := str "hi", start := .finite { num := 0, den := 1 },
             duration := .finite { num := 3, den := 2 } } := by
  refine ⟨fun r seg h => processSegment_of_timingBad r seg h, ?_, ?_, ?_⟩
  · intro render seg st du hst hdu hf1 hf2
    unfold processSegment
    rw [if_neg (by simp [hf1, hf2]), hst, hdu]
  · intro render d inner
    rfl
  · rfl

/-- C10 (witness): a segment with a non-numeric `start` is skipped. -/
theorem C10_witness :
    processSegment (renderText defaultCfg)
      { start? := some (str "abc"), dur? := some (str "1"), inner := str "x" } = none :=
  C10_skip_condition.1 (renderText defaultCfg) _ (by decide)

/-- C8 (counterexample): the claim describes the anchor replacement as the
template with `{text}` substituted by the anchor text and `{url}` by the
href (`substTemplateAll`).  The source substitutes sequentially — `{text}`
first, then the *first* `{url}` occurrence in the result — so an anchor
whose text is the string `{url}` renders as `H ({url})` where the claim's
reading demands `{url} (H)`. -/
theorem C8_counterexample :
    plainRender (str "{text} ({url})") (mkAnchor (str "H") (str "{url}")) = str "H ({url})" ∧
    substTemplateAll (str "{text} ({url})") (str "{url}") (str "H") = str "{url} (H)" ∧
    plainRender (str "{text} ({url})") (mkAnchor (str "H") (str "{url}")) ≠
      substTemplateAll (str "{text} ({url})") (str "{url}") (str "H") :=
  ⟨rfl, rfl, by decide⟩

/-- C8 (amended): in plain mode an anchor with a truthy `href` and nonempty
text is replaced by `formatLink` — the template with the first `{text}`
occurrence replaced by the anchor text and then the first `{url}`
occurrence of the result replaced by the href; an anchor missing either is
replaced by its bare text; every other tag is dropped while its content is
retained; the claim's default-template and custom-template examples render
as stated. -/
theorem C8_amended :
    (∀ (fmt h : Str) (attrs : List (Str × Str)) (ch : XNodes),
        getAttr attrs (str "href") = some h → h ≠ [] → textContentL ch ≠ [] →
        plainRender fmt (.cons (.elem (str "a") attrs ch) .nil) =
          formatLink fmt (textContentL ch) h) ∧
    (∀ (fmt : Str) (attrs : List (Str × Str)) (ch : XNodes),
        getAttr attrs (str "href") = none ∨ getAttr attrs (str "href") = some [] ∨
          textContentL ch = [] →
        plainRender fmt (.cons (.elem (str "a") attrs ch) .nil) = textContentL ch) ∧
    (∀ (fmt tag : Str) (attrs : List (Str × Str)) (ch : XNodes),
        tag ≠ str "a" →
        plainRender fmt (.cons (.elem tag attrs ch) .nil) = plainRender fmt ch) ∧
    plainRender (str "{text} ({url})") (mkAnchor (str "https://x.test") (str "t")) =
      str "t (https://x.test)" ∧
    plainRender (str "[{text}]({url})") (mkAnchor (str "https://x.test") (str "t")) =
      str "[t](https://x.test)" := by
  refine ⟨?_, ?_, ?_, rfl, rfl⟩
  · intro fmt h attrs ch hhref hh ht
    simp [plainRender, anchorReplL, anchorRepl, hhref, hh, ht, textContentL, textContent]
  · intro fmt attrs ch hcase
    rcases hcase with hc | hc | hc
    · simp [plainRender, anchorReplL, anchorRepl, hc, textContentL, textContent]
    · simp [plainRender, anchorReplL, anchorRepl, hc, textContentL, textContent]
    · cases hh : getAttr attrs (str "href") <;>
        simp [plainRender, anchorReplL, anchorRepl, hh, hc, textContentL, textContent]
  · intro fmt tag attrs ch htag
    simp [plainRender, anchorReplL, anchorRepl, htag, textContentL, textContent]

/-- C8 (witness): the formatted-anchor branch at a concrete anchor. -/
theorem C8_witness :
    plainRender (str "{text} ({url})")
      (.cons (.elem (str "a") [(str "href", str "hh")] (.cons (.text (str "tt")) .nil)) .nil) =
      formatLink (str "{text} ({url})") (textContentL (.cons (.text (str "tt")) .nil)) (str "hh") :=
  C8_amended.1 _ _ _ _ rfl (by decide) (by decide)

/-- C3 (counterexample): the claim says a tag outside the allow-list
`strong … a`, such as `div`, is replaced by its inner content, so
`<div>word</div>` collapses to `word`.  In the source, `div` is exempted by
the removal selector `$('*').not('div, ' + FORMATTING_TAGS.join(', '))`,
and in fact no element is replaced at all: the `$('*')` snapshot begins
with the non-exempt `<html>` scaffolding element, whose `replaceWith`
detaches every later snapshot entry (see `processFmt`).  So
`<div>word</div>` is retained verbatim, and so is `<p>word</p>` even
though `p` is in neither the allow-list nor the selector's exemption —
neither collapses to `word`. -/
theorem C3_counterexample :
    renderText fmtCfg (str "<div>word</div>") = str "<div>word</div>" ∧
    renderText fmtCfg (str "<div>word</div>") ≠ str "word" ∧
    renderText fmtCfg (str "<p>word</p>") = str "<p>word</p>" ∧
    renderText fmtCfg (str "<p>word</p>") ≠ str "word" :=
  ⟨rfl, by decide, rfl, by decide⟩

/-- C3 (amended): in formatting-preserving mode anchors are converted by
the link template, and every other element — in `FORMATTING_TAGS` or not —
is retained verbatim with its attributes, its children processed in place:
the removal pass never touches a live element (see `processFmt`).  In
particular `<b>word</b>` (allow-listed), `<div>word</div>`
(selector-exempt) and `<p>word</p>` (neither) are all retained
verbatim. -/
theorem C3_amended :
    (∀ (fmt tag : Str) (attrs : List (Str × Str)) (ch : XNodes),
        tag ≠ str "a" →
        processFmt fmt (.cons (.elem tag attrs ch) .nil) =
          serializeNode (.elem tag attrs (anchorReplL fmt ch))) ∧
    renderText fmtCfg (str "<b>word</b>") = str "<b>word</b>" ∧
    renderText fmtCfg (str "<div>word</div>") = str "<div>word</div>" ∧
    renderText fmtCfg (str "<p>word</p>") = str "<p>word</p>" := by
  refine ⟨?_, rfl, rfl, rfl⟩
  intro fmt tag attrs ch htag
  simp [processFmt, anchorReplL, anchorRepl, htag, serializeNodes]

/-- C3 (witness): the retention statement at a concrete non-anchor element
with an attribute. -/
theorem C3_witness :
    processFmt (str "{text} ({url})")
      (.cons (.elem (str "p") [(str "class", str "x")]
        (.cons (.text (str "w")) .nil)) .nil) =
      serializeNode (.elem (str "p") [(str "class", str "x")]
        (anchorReplL (str "{text} ({url})") (.cons (.text (str "w")) .nil))) :=
  C3_amended.1 _ _ _ _ (by decide)

/-- After a collapse pass that has just emitted (or skipped) whitespace,
the output starts with a non-whitespace character. -/
theorem collapseAux_head_not_ws :
    ∀ (s : Str) (c : Char), (collapseAux s true).head? = some c → isWsJsChar c = false := by
  intro s
  induction s with
  | nil => intro c h; simp [collapseAux] at h
  | cons a rest ih =>
    intro c h
    by_cases ha : isWsJsChar a = true
    · rw [show collapseAux (a :: rest) true = collapseAux rest true by simp [collapseAux, ha]]
        at h
      exact ih c h
    · rw [show collapseAux (a :: rest) true = a :: collapseAux rest false by
          simp [collapseAux, ha]] at h
      simp only [List.head?_cons, Option.some.injEq] at h
      subst h
      exact Bool.not_eq_true _ ▸ ha

/-- The collapse pass never emits two adjacent whitespace characters. -/
theorem collapseAux_chain :
    ∀ (s : Str) (prev : Bool),
      List.Chain' (fun a b => ¬ (isWsJsChar a = true ∧ isWsJsChar b = true))
        (collapseAux s prev) := by
  intro s
  induction s with
  | nil => intro prev; simp [collapseAux]
  | cons a rest ih =>
    intro prev
    by_cases ha : isWsJsChar a = true
    · cases prev
      · rw [show collapseAux (a :: rest) false = ' ' :: collapseAux rest true by
            simp [collapseAux, ha]]
        refine List.chain'_cons'.mpr ⟨?_, ih true⟩
        intro b hb
        simp [collapseAux_head_not_ws rest b hb]
      · rw [show collapseAux (a :: rest) true = collapseAux rest true by
            simp [collapseAux, ha]]
        exact ih true
    · rw [show collapseAux (a :: rest) prev = a :: collapseAux rest false by
          simp [collapseAux, ha]]
      refine List.chain'_cons'.mpr ⟨?_, ih false⟩
      intro b hb
      simp [ha]

/-- The head of a whitespace-`dropWhile` is not whitespace. -/
theorem dropWhile_ws_head :
    ∀ (l : Str) (c : Char), (l.dropWhile isWsJsChar).head? = some c → isWsJsChar c = false := by
  intro l
  induction l with
  | nil => intro c h; simp at h
  | cons a rest ih =>
    intro c h
    by_cases ha : isWsJsChar a = true
    · rw [List.dropWhile_cons_of_pos ha] at h
      exact ih c h
    · rw [List.dropWhile_cons_of_neg ha] at h
      simp only [List.head?_cons, Option.some.injEq] at h
      subst h
      exact Bool.not_eq_true _ ▸ ha

/-- A nonempty whitespace-`dropWhile` keeps the last element. -/
theorem dropWhile_ws_getLast :
    ∀ (l : Str), l.dropWhile isWsJsChar ≠ [] →
      (l.dropWhile isWsJsChar).getLast? = l.getLast? := by
  intro l
  induction l with
  | nil => simp
  | cons a rest ih =>
    intro hne
    by_cases ha : isWsJsChar a = true
    · rw [List.dropWhile_cons_of_pos ha] at hne ⊢
      rw [ih hne]
      have hrest : rest ≠ [] := by
        intro hnil
        rw [hnil] at hne
        simp at hne
      rcases rest with _ | ⟨b, t⟩
      · exact absurd rfl hrest
      · exact (List.getLast?_cons_cons).symm
    · rw [List.dropWhile_cons_of_neg ha]

/-- The cleaned text has isolated spaces and no leading or trailing
whitespace. -/
theorem cleanText_props (s : Str) : NoDoubleWs (cleanText s) ∧ TrimmedWs (cleanText s) := by
  have hsymm : ∀ a b : Char,
      (¬ (isWsJsChar a = true ∧ isWsJsChar b = true)) →
      ¬ (isWsJsChar b = true ∧ isWsJsChar a = true) := by
    intro a b h
    tauto
  have hchain_x : List.Chain' _ (collapseWs s) := collapseAux_chain s false
  have hchain_z := hchain_x.suffix (List.dropWhile_suffix isWsJsChar)
  have hchain_zr : List.Chain'
      (fun a b => ¬ (isWsJsChar a = true ∧ isWsJsChar b = true))
      ((collapseWs s).dropWhile isWsJsChar).reverse := by
    rw [List.chain'_reverse]
    exact hchain_z.imp (fun {a b} h => hsymm a b h)
  have hchain_y := hchain_zr.suffix (List.dropWhile_suffix isWsJsChar)
  have hchain : List.Chain'
      (fun a b => ¬ (isWsJsChar a = true ∧ isWsJsChar b = true)) (cleanText s) := by
    show List.Chain' _
      (((collapseWs s).dropWhile isWsJsChar).reverse.dropWhile isWsJsChar).reverse
    rw [List.chain'_reverse]
    exact hchain_y.imp (fun {a b} h => hsymm a b h)
  refine ⟨hchain, ?_, ?_⟩
  · -- no leading whitespace
    intro c hc
    have hc' : ((((collapseWs s).dropWhile isWsJsChar).reverse.dropWhile
        isWsJsChar).reverse).head? = some c := hc
    rw [List.head?_reverse] at hc'
    have hy_ne : ((collapseWs s).dropWhile isWsJsChar).reverse.dropWhile isWsJsChar ≠ [] := by
      intro hnil
      rw [hnil] at hc'
      simp at hc'
    rw [dropWhile_ws_getLast _ hy_ne, List.getLast?_reverse] at hc'
    exact dropWhile_ws_head (collapseWs s) c hc'
  · -- no trailing whitespace
    intro c hc
    have hc' : ((((collapseWs s).dropWhile isWsJsChar).reverse.dropWhile
        isWsJsChar).reverse).getLast? = some c := hc
    rw [List.getLast?_reverse] at hc'
    exact dropWhile_ws_head _ c hc'

/-- A produced snippet's text is the cleaned render and is nonempty. -/
theorem processSegment_some_text (render : Str → Str) (seg : Segment) (sn : Snippet)
    (h : processSegment render seg = some sn) :
    sn.text = cleanText (render seg.inner) ∧ sn.text ≠ [] := by
  unfold processSegment at h
  by_cases hf : attrFalsy seg.start? = true ∨ attrFalsy seg.dur? = true
  · rw [if_pos hf] at h
    exact absurd h (by simp)
  · rw [if_neg hf] at h
    cases hs : jsParseFloat (seg.start?.getD []) with
    | none => rw [hs] at h; simp at h
    | some st =>
      rw [hs] at h
      cases hd : jsParseFloat (seg.dur?.getD []) with
      | none => rw [hd] at h; simp at h
      | some du =>
        rw [hd] at h
        have h2 : (if cleanText (render seg.inner) = [] then (none : Option Snippet)
            else some { text := cleanText (render seg.inner), start := st,
                        duration := du }) = some sn := h
        by_cases ht : cleanText (render seg.inner) = []
        · rw [if_pos ht] at h2
          exact absurd h2 (by simp)
        · rw [if_neg ht] at h2
          obtain rfl := Option.some.inj h2
          exact ⟨rfl, ht⟩

/-- C6: the decoder's output is exactly the document-ordered `filterMap` of
per-segment processing (snippets in document order, empty-text segments
dropped), and every emitted snippet's text is nonempty, has no run of two
or more consecutive whitespace characters, and has no leading or trailing
whitespace. -/
theorem C6_invariants :
    (∀ (render : Str → Str) (segs : List Segment),
        parseSegmentsFold render segs = segs.filterMap (processSegment render)) ∧
    (∀ (render : Str → Str) (segs : List Segment) (sn : Snippet),
        sn ∈ parseSegmentsFold render segs →
          sn.text ≠ [] ∧ NoDoubleWs sn.text ∧ TrimmedWs sn.text) := by
  refine ⟨parseSegmentsFold_eq_filterMap, ?_⟩
  intro render segs sn hmem
  rw [parseSegmentsFold_eq_filterMap] at hmem
  rcases List.mem_filterMap.mp hmem with ⟨seg, _, hseg⟩
  obtain ⟨htext, hne⟩ := processSegment_some_text render seg sn hseg
  have := cleanText_props (render seg.inner)
  rw [← htext] at this
  exact ⟨hne, this.1, this.2⟩

/-- C6 (witness): the invariants at a concrete emitted snippet. -/
theorem C6_witness :
    ({ text := str "hi", start := .finite { num := 0, den := 1 },
       duration := .finite { num := 1, den := 1 } } : Snippet).text ≠ [] ∧
    NoDoubleWs (str "hi") ∧ TrimmedWs (str "hi") :=
  C6_invariants.2 id [{ start? := some (str "0"), dur? := some (str "1"), inner := str "hi" }]
    _ (by decide)

/-- C5: extraction fails exactly when both strategies are exhausted — the
scan strategy (marker absent, no `{`, unbalanced braces, or invalid JSON,
the successive failure exits of `parseCharByChar`) and every regex fallback
pattern; any failure carries the single data-unparsable kind with the
caller-supplied video id; and the claim's two concrete inputs fail.  (The
variable name is assumed to be an identifier, under which the modelled
fallback patterns coincide with `new RegExp` on the interpolated name.) -/
theorem C5_data_unparsable :
    (∀ (html name vid : Str), IsIdent name →
        ((∃ e, jsVarParse html name vid = .error e) ↔
          (∃ e1, parseCharByChar html name vid = .error e1) ∧
          (∃ e2, parseWithRegex html name vid = .error e2))) ∧
    (∀ (html name vid : Str) (e : RetrieveErr),
        jsVarParse html name vid = .error e → e = dataUnparsable vid) ∧
    jsVarParse c5NoVar (str "X") (str "vid1") = .error (dataUnparsable (str "vid1")) ∧
    jsVarParse c5Unterminated (str "X") (str "vid1") = .error (dataUnparsable (str "vid1")) := by
  refine ⟨?_, ?_, rfl, rfl⟩
  · intro html name vid _
    unfold jsVarParse
    cases hc : parseCharByChar html name vid with
    | ok r => simp [hc]
    | error e1 => simp [hc]
  · intro html name vid e h
    unfold jsVarParse at h
    cases hc : parseCharByChar html name vid with
    | ok r => rw [hc] at h; exact absurd h (by simp)
    | error e1 =>
      rw [hc] at h
      unfold parseWithRegex at h
      have h2 : (match ([p1At name, p2At name, p3At name].findSome? (fun patAt =>
          match firstMatch patAt html with
          | some m =>
            match jsonParse (normQuotesAll m) with
            | some v => some (m, v)
            | none => none
          | none => none) : Option (Str × Json)) with
        | some r => (Except.ok r : Except RetrieveErr (Str × Json))
        | none => Except.error (dataUnparsable vid)) = Except.error e := h
      cases hfs : ([p1At name, p2At name, p3At name].findSome? (fun patAt =>
          match firstMatch patAt html with
          | some m =>
            match jsonParse (normQuotesAll m) with
            | some v => some (m, v)
            | none => none
          | none => none) : Option (Str × Json)) with
      | some r => rw [hfs] at h2; exact absurd h2 (by simp)
      | none =>
        rw [hfs] at h2
        exact (Except.error.inj h2).symm

/-- C5 (witness): the exhaustion equivalence at the claim's first concrete
input. -/
theorem C5_witness :
    (∃ e, jsVarParse c5NoVar (str "X") (str "vid1") = .error e) ↔
      (∃ e1, parseCharByChar c5NoVar (str "X") (str "vid1") = .error e1) ∧
      (∃ e2, parseWithRegex c5NoVar (str "X") (str "vid1") = .error e2) :=
  C5_data_unparsable.1 c5NoVar (str "X") (str "vid1") ⟨by decide, by decide⟩

/-- The scanner stops within the scanned text. -/
theorem scanObj_some_lt :
    ∀ (xs : Str) (st : ScanSt) (k : Nat), scanObj xs st = some k → k < xs.length := by
  intro xs
  induction xs with
  | nil => intro st k h; simp [scanObj] at h
  | cons c rest ih =>
    intro st k h
    simp only [scanObj] at h
    simp only [List.length_cons]
    split_ifs at h <;>
      first
      | (rcases Option.map_eq_some'.mp h with ⟨k', hk', rfl⟩
         exact Nat.succ_lt_succ (ih _ _ hk'))
      | (obtain rfl := Option.some.inj h; exact Nat.succ_pos _)

/-- The scanner's stop depends only on the consumed prefix: appending text
after it changes nothing. -/
theorem scanObj_append (ys : Str) :
    ∀ (xs : Str) (st : ScanSt) (k : Nat), scanObj xs st = some k →
      scanObj (xs ++ ys) st = some k := by
  intro xs
  induction xs with
  | nil => intro st k h; simp [scanObj] at h
  | cons c rest ih =>
    intro st k h
    rw [List.cons_append]
    simp only [scanObj] at h ⊢
    split_ifs at h ⊢ <;>
      first
      | exact h
      | (rcases Option.map_eq_some'.mp h with ⟨k', hk', rfl⟩
         rw [ih _ _ hk']
         rfl)

/-- The scanner's stop depends only on the consumed prefix: truncating just
after the stop changes nothing. -/
theorem scanObj_take :
    ∀ (xs : Str) (st : ScanSt) (k : Nat), scanObj xs st = some k →
      scanObj (xs.take (k + 1)) st = some k := by
  intro xs
  induction xs with
  | nil => intro st k h; simp [scanObj] at h
  | cons c rest ih =>
    intro st k h
    rw [List.take_succ_cons]
    simp only [scanObj] at h ⊢
    split_ifs at h ⊢ <;>
      first
      | exact h
      | (rcases Option.map_eq_some'.mp h with ⟨k', hk', rfl⟩
         rw [ih _ _ hk']
         rfl)

/-- A Boolean that is not `true` is `false`. -/
theorem bool_eq_false_of_not_true {b : Bool} (h : ¬ b = true) : b = false := by
  cases b
  · rfl
  · exact absurd rfl h

/-- Occurrence characterization of a failed substring search. -/
theorem findSubIdx_eq_none_iff (m : Str) (hm : m ≠ []) :
    ∀ s : Str, findSubIdx m s = none ↔ ∀ j, m.isPrefixOf (s.drop j) = false := by
  intro s
  induction s with
  | nil =>
    rcases m with _ | ⟨a, t⟩
    · exact absurd rfl hm
    · simp [findSubIdx, List.isPrefixOf]
  | cons c t ih =>
    by_cases hp : m.isPrefixOf (c :: t) = true
    · rw [show findSubIdx m (c :: t) = some 0 from by rw [findSubIdx, if_pos hp]]
      constructor
      · intro h; exact absurd h (by simp)
      · intro hall
        have h0 := hall 0
        rw [List.drop_zero, hp] at h0
        exact absurd h0 (by simp)
    · rw [show findSubIdx m (c :: t) = (findSubIdx m t).map (· + 1) from by
        rw [findSubIdx, if_neg hp]]
      constructor
      · intro h j
        have hnone : findSubIdx m t = none := Option.map_eq_none'.mp h
        match j with
        | 0 => exact bool_eq_false_of_not_true hp
        | j' + 1 => simpa using (ih.mp hnone) j'
      · intro hall
        rw [Option.map_eq_none']
        exact ih.mpr (fun j => by simpa using hall (j + 1))

/-- A successful substring search yields an occurrence. -/
theorem findSubIdx_isPrefix (m : Str) :
    ∀ (s : Str) (i : Nat), findSubIdx m s = some i → m.isPrefixOf (s.drop i) = true := by
  intro s
  induction s with
  | nil =>
    intro i h
    by_cases hp : m.isPrefixOf ([] : Str) = true
    · rw [show findSubIdx m [] = some 0 from by rw [findSubIdx, if_pos hp]] at h
      obtain rfl := Option.some.inj h
      simpa using hp
    · rw [show findSubIdx m [] = none from by rw [findSubIdx, if_neg hp]] at h
      exact absurd h (by simp)
  | cons c t ih =>
    intro i h
    by_cases hp : m.isPrefixOf (c :: t) = true
    · rw [show findSubIdx m (c :: t) = some 0 from by rw [findSubIdx, if_pos hp]] at h
      obtain rfl := Option.some.inj h
      simpa using hp
    · rw [show findSubIdx m (c :: t) = (findSubIdx m t).map (· + 1) from by
        rw [findSubIdx, if_neg hp]] at h
      rcases Option.map_eq_some'.mp h with ⟨i', hi', rfl⟩
      simpa using ih i' hi'

/-- A successful substring search yields the leftmost occurrence. -/
theorem findSubIdx_min (m : Str) :
    ∀ (s : Str) (i : Nat), findSubIdx m s = some i →
      ∀ j < i, m.isPrefixOf (s.drop j) = false := by
  intro s
  induction s with
  | nil =>
    intro i h j hj
    by_cases hp : m.isPrefixOf ([] : Str) = true
    · rw [show findSubIdx m [] = some 0 from by rw [findSubIdx, if_pos hp]] at h
      obtain rfl := Option.some.inj h
      exact absurd hj (by omega)
    · rw [show findSubIdx m [] = none from by rw [findSubIdx, if_neg hp]] at h
      exact absurd h (by simp)
  | cons c t ih =>
    intro i h j hj
    by_cases hp : m.isPrefixOf (c :: t) = true
    · rw [show findSubIdx m (c :: t) = some 0 from by rw [findSubIdx, if_pos hp]] at h
      obtain rfl := Option.some.inj h
      exact absurd hj (by omega)
    · rw [show findSubIdx m (c :: t) = (findSubIdx m t).map (· + 1) from by
        rw [findSubIdx, if_neg hp]] at h
      rcases Option.map_eq_some'.mp h with ⟨i', hi', rfl⟩
      match j with
      | 0 => exact bool_eq_false_of_not_true hp
      | j' + 1 =>
        have := ih i' hi' j' (by omega)
        simpa using this

/-- A prefix of a dropped `take` is a prefix of the dropped list. -/
theorem prefix_of_take_drop (m l : Str) (n j : Nat)
    (h : m <+: (l.take n).drop j) : m <+: l.drop j := by
  rw [List.drop_take] at h
  exact h.trans (List.take_prefix _ _)

/-- Text between consecutive marker occurrences (`parts[1]` of the split)
contains no occurrence of the marker. -/
theorem part1After_no_marker (m : Str) (hm : m ≠ []) (src a : Str)
    (h : part1After m src = some a) : ∀ j, m.isPrefixOf (a.drop j) = false := by
  unfold part1After at h
  cases h1 : findSubIdx m src with
  | none => rw [h1] at h; exact absurd h (by simp)
  | some i =>
    rw [h1] at h
    have h' : (match findSubIdx m (src.drop (i + m.length)) with
      | none => some (src.drop (i + m.length))
      | some j => some ((src.drop (i + m.length)).take j)) = some a := h
    cases h2 : findSubIdx m (src.drop (i + m.length)) with
    | none =>
      rw [h2] at h'
      obtain rfl := Option.some.inj h'
      exact (findSubIdx_eq_none_iff m hm _).mp h2
    | some j0 =>
      rw [h2] at h'
      obtain rfl := Option.some.inj h'
      intro j
      by_contra hc
      have hc' : m.isPrefixOf (((src.drop (i + m.length)).take j0).drop j) = true := by
        cases hb : m.isPrefixOf (((src.drop (i + m.length)).take j0).drop j)
        · exact absurd hb hc
        · rfl
      have hpre : m <+: ((src.drop (i + m.length)).take j0).drop j :=
        List.isPrefixOf_iff_prefix.mp hc'
      have hmlen : 0 < m.length := List.length_pos.mpr hm
      have hlen : 0 < (((src.drop (i + m.length)).take j0).drop j).length :=
        Nat.lt_of_lt_of_le hmlen hpre.length_le
      have hj : j < j0 := by
        simp only [List.length_drop, List.length_take] at hlen
        omega
      have hpre' : m <+: (src.drop (i + m.length)).drop j :=
        prefix_of_take_drop m _ j0 j hpre
      have := findSubIdx_min m _ j0 h2 j hj
      rw [List.isPrefixOf_iff_prefix.mpr hpre'] at this
      exact absurd this (by simp)

/-- No marker occurrence survives inside the scanner-extracted substring. -/
theorem no_occur_in_extract (m a : Str) (_hm : m ≠ [])
    (hfree : ∀ j, m.isPrefixOf (a.drop j) = false) (openIdx k : Nat) :
    ∀ j, m.isPrefixOf (((a.drop openIdx).take (k + 1)).drop j) = false := by
  intro j
  by_contra hc
  have hc' : m.isPrefixOf (((a.drop openIdx).take (k + 1)).drop j) = true := by
    cases hb : m.isPrefixOf (((a.drop openIdx).take (k + 1)).drop j)
    · exact absurd hb hc
    · rfl
  have hpre : m <+: (a.drop openIdx).drop j :=
    prefix_of_take_drop m _ _ _ (List.isPrefixOf_iff_prefix.mp hc')
  rw [List.drop_drop] at hpre
  have := hfree (openIdx + j)
  rw [List.isPrefixOf_iff_prefix.mpr hpre] at this
  exact absurd this (by simp)

/-- The semicolon is not a character of the marker for identifier names. -/
theorem semicolon_not_in_marker (name : Str) (hname : IsIdent name) :
    ';' ∉ varMarker name := by
  intro hmem
  rcases List.mem_append.mp hmem with h | h
  · simp [str] at h
  · have hall := List.all_eq_true.mp hname.2 _ h
    simp [isIdentChar, isDig] at hall

/-- A right factor of a prefix is a prefix of the dropped list. -/
theorem append_prefix_right (x y z : Str) (h : (x ++ y) <+: z) :
    y <+: z.drop x.length := by
  rcases h with ⟨t, ht⟩
  refine ⟨t, ?_⟩
  rw [← ht, List.append_assoc, List.drop_left]

/-- For an identifier name, the marker cannot occur in ` = ` + s + `;` when
it cannot occur in `s`. -/
theorem marker_not_in_tail (name s : Str) (hname : IsIdent name)
    (hfree : ∀ j, (varMarker name).isPrefixOf (s.drop j) = false) :
    ∀ j, (varMarker name).isPrefixOf ((str " = " ++ (s ++ [';'])).drop j) = false := by
  intro j
  match j with
  | 0 => simp [varMarker, str, List.isPrefixOf]
  | 1 => simp [varMarker, str, List.isPrefixOf]
  | 2 => simp [varMarker, str, List.isPrefixOf]
  | j' + 3 =>
    have hdrop : (str " = " ++ (s ++ [';'])).drop (j' + 3) = (s ++ [';']).drop j' := by
      simp [str]
    rw [hdrop]
    by_cases hj : j' ≤ s.length
    · rw [List.drop_append_of_le_length hj]
      by_contra hc
      have hc' : (varMarker name).isPrefixOf (s.drop j' ++ [';']) = true := by
        cases hb : (varMarker name).isPrefixOf (s.drop j' ++ [';'])
        · exact absurd hb hc
        · rfl
      have hpre : varMarker name <+: s.drop j' ++ [';'] :=
        List.isPrefixOf_iff_prefix.mp hc'
      by_cases hlen : (varMarker name).length ≤ (s.drop j').length
      · -- the occurrence sits inside s
        have : varMarker name <+: s.drop j' := by
          rcases hpre with ⟨t, ht⟩
          have := congrArg (List.take (varMarker name).length) ht
          rw [List.take_append_of_le_length (by simp),
            List.take_append_of_le_length hlen] at this
          rw [List.take_length] at this
          rw [this]
          exact List.take_prefix _ _
        have hocc := hfree j'
        rw [List.isPrefixOf_iff_prefix.mpr this] at hocc
        exact absurd hocc (by simp)
      · -- the occurrence would cover the final semicolon
        have hlen2 : (s.drop j' ++ [';']).length = (s.drop j').length + 1 := by simp
        have hle := hpre.length_le
        rw [hlen2] at hle
        have heq : varMarker name = s.drop j' ++ [';'] :=
          List.IsPrefix.eq_of_length hpre (by rw [hlen2]; omega)
        have : ';' ∈ varMarker name := by
          rw [heq]
          exact List.mem_append_right _ (by simp)
        exact absurd this (semicolon_not_in_marker name hname)
    · -- dropping past the end
      have hnil : (s ++ [';']).drop j' = [] := by
        apply List.drop_eq_nil_of_le
        simp
        omega
      rw [hnil]
      rcases hv : varMarker name with _ | ⟨a, t⟩
      · exact absurd hv (by simp [varMarker, str])
      · simp [List.isPrefixOf]

/-- On the re-extraction input `var NAME = s;`, the split on the marker
yields exactly ` = s;` when `s` holds no marker occurrence. -/
theorem part1After_reInput (name s : Str) (hname : IsIdent name)
    (hfree : ∀ j, (varMarker name).isPrefixOf (s.drop j) = false) :
    part1After (varMarker name) (reInput name s) = some (str " = " ++ (s ++ [';'])) := by
  have hpre0 : (varMarker name).isPrefixOf (reInput name s) = true :=
    List.isPrefixOf_iff_prefix.mpr (List.prefix_append _ _)
  have h0 : findSubIdx (varMarker name) (reInput name s) = some 0 := by
    cases hr : reInput name s with
    | nil => rw [hr] at hpre0; rw [findSubIdx, if_pos hpre0]
    | cons c t => rw [hr] at hpre0; rw [findSubIdx, if_pos hpre0]
  unfold part1After
  rw [h0]
  have hdrop : (reInput name s).drop (0 + (varMarker name).length) =
      str " = " ++ (s ++ [';']) := by
    show (varMarker name ++ (str " = " ++ (s ++ [';']))).drop (0 + (varMarker name).length) = _
    rw [Nat.zero_add, List.drop_left]
  show (match findSubIdx (varMarker name)
      ((reInput name s).drop (0 + (varMarker name).length)) with
    | none => some ((reInput name s).drop (0 + (varMarker name).length))
    | some j => some (((reInput name s).drop (0 + (varMarker name).length)).take j)) =
    some (str " = " ++ (s ++ [';']))
  rw [hdrop]
  have hmarker_ne : varMarker name ≠ [] := by simp [varMarker, str]
  rw [(findSubIdx_eq_none_iff _ hmarker_ne _).mpr (marker_not_in_tail name s hname hfree)]

/-- The character found by `findCharIdx` satisfies the predicate and heads
the dropped list. -/
theorem findCharIdx_drop_head (p : Char → Bool) :
    ∀ (l : Str) (i : Nat), findCharIdx p l = some i →
      ∃ c t, l.drop i = c :: t ∧ p c = true := by
  intro l
  induction l with
  | nil => intro i h; simp [findCharIdx] at h
  | cons a rest ih =>
    intro i h
    simp only [findCharIdx] at h
    by_cases hp : p a = true
    · rw [if_pos hp] at h
      obtain rfl := Option.some.inj h
      exact ⟨a, rest, rfl, hp⟩
    · rw [if_neg hp] at h
      rcases Option.map_eq_some'.mp h with ⟨i', hi', rfl⟩
      obtain ⟨c, t, hdrop, hc⟩ := ih i' hi'
      exact ⟨c, t, by simpa using hdrop, hc⟩

/-- Decomposition of the stages after the marker split of a successful
scan-strategy extraction. -/
theorem parseTail_ok (vid s : Str) (v : Json) (a : Str)
    (h : (match findCharIdx (fun c => c = '{') a with
      | none => (Except.error (dataUnparsable vid) : Except RetrieveErr (Str × Json))
      | some openIdx =>
        match scanObj (a.drop openIdx) scanInit with
        | none => Except.error (dataUnparsable vid)
        | some k =>
          match jsonParse ((a.drop openIdx).take (k + 1)) with
          | some v' => Except.ok ((a.drop openIdx).take (k + 1), v')
          | none => Except.error (dataUnparsable vid)) = .ok (s, v)) :
    ∃ openIdx k,
      findCharIdx (fun c => c = '{') a = some openIdx ∧
      scanObj (a.drop openIdx) scanInit = some k ∧
      s = (a.drop openIdx).take (k + 1) ∧ jsonParse s = some v := by
  cases hidx : findCharIdx (fun c => c = '{') a with
  | none => rw [hidx] at h; exact absurd h (by simp)
  | some openIdx =>
    rw [hidx] at h
    have h2 : (match scanObj (a.drop openIdx) scanInit with
      | none => (Except.error (dataUnparsable vid) : Except RetrieveErr (Str × Json))
      | some k =>
        match jsonParse ((a.drop openIdx).take (k + 1)) with
        | some v' => Except.ok ((a.drop openIdx).take (k + 1), v')
        | none => Except.error (dataUnparsable vid)) = .ok (s, v) := h
    cases hscan : scanObj (a.drop openIdx) scanInit with
    | none => rw [hscan] at h2; exact absurd h2 (by simp)
    | some k =>
      rw [hscan] at h2
      have h3 : (match jsonParse ((a.drop openIdx).take (k + 1)) with
        | some v' => (Except.ok ((a.drop openIdx).take (k + 1), v') :
            Except RetrieveErr (Str × Json))
        | none => Except.error (dataUnparsable vid)) = .ok (s, v) := h2
      cases hjs : jsonParse ((a.drop openIdx).take (k + 1)) with
      | none => rw [hjs] at h3; exact absurd h3 (by simp)
      | some v' =>
        rw [hjs] at h3
        have hpair := Except.ok.inj h3
        have hs : (a.drop openIdx).take (k + 1) = s := congrArg Prod.fst hpair
        have hv : v' = v := congrArg Prod.snd hpair
        refine ⟨openIdx, k, rfl, hscan, hs.symm, ?_⟩
        rw [hs, hv] at hjs
        exact hjs

/-- Decomposition of a successful scan-strategy extraction into its
stages. -/
theorem parseCharByChar_ok (html name vid s : Str) (v : Json)
    (h : parseCharByChar html name vid = .ok (s, v)) :
    ∃ (a : Str) (openIdx k : Nat),
      (part1After (varMarker name) html = some a ∨
        (part1After (varMarker name) html = none ∧ part1After name html = some a)) ∧
      findCharIdx (fun c => c = '{') a = some openIdx ∧
      scanObj (a.drop openIdx) scanInit = some k ∧
      s = (a.drop openIdx).take (k + 1) ∧
      jsonParse s = some v := by
  unfold parseCharByChar at h
  cases h1 : part1After (varMarker name) html with
  | some a =>
    rw [h1] at h
    obtain ⟨openIdx, k, h2, h3, h4, h5⟩ := parseTail_ok vid s v a h
    exact ⟨a, openIdx, k, Or.inl rfl, h2, h3, h4, h5⟩
  | none =>
    rw [h1] at h
    cases h1b : part1After name html with
    | none => rw [h1b] at h; exact absurd h (by simp)
    | some a =>
      rw [h1b] at h
      obtain ⟨openIdx, k, h2, h3, h4, h5⟩ := parseTail_ok vid s v a h
      exact ⟨a, openIdx, k, Or.inr ⟨rfl, rfl⟩, h2, h3, h4, h5⟩

/-- A text free of bare-name occurrences is free of marker occurrences. -/
theorem marker_free_of_name_free (name a : Str)
    (hfree : ∀ j, name.isPrefixOf (a.drop j) = false) :
    ∀ j, (varMarker name).isPrefixOf (a.drop j) = false := by
  intro j
  by_contra hc
  have hc' : (varMarker name).isPrefixOf (a.drop j) = true := by
    cases hb : (varMarker name).isPrefixOf (a.drop j)
    · exact absurd hb hc
    · rfl
  have hpre : (str "var " ++ name) <+: a.drop j := List.isPrefixOf_iff_prefix.mp hc'
  have hname : name <+: (a.drop j).drop (str "var ").length :=
    append_prefix_right _ _ _ hpre
  rw [List.drop_drop] at hname
  have := hfree (j + (str "var ").length)
  rw [List.isPrefixOf_iff_prefix.mpr hname] at this
  exact absurd this (by simp)

/-- C9 (counterexample): on the input `oXo { junk ; X = {"a': 1, 'b": 2};`
extraction succeeds through the regex fallback, with extracted
object-literal substring `s = {"a': 1, 'b": 2}` and — after the fallback's
single-quote normalization — the two-key value `{"a": 1, "b": 2}`.
Re-running extraction on `var X = s;` succeeds through the scan strategy
and strict JSON parsing of `s` itself, yielding the one-key value
`{"a': 1, 'b": 2}`.  The two values differ, so extraction is not
idempotent as claimed. -/
theorem C9_counterexample :
    jsVarParse c9H (str "X") (str "vid1") = .ok (c9obj, c9v) ∧
    jsVarParse (reInput (str "X") c9obj) (str "X") (str "vid1") = .ok (c9obj, c9vRerun) ∧
    c9v ≠ c9vRerun :=
  ⟨rfl, rfl, fun h => absurd (congrArg objWidth h) (by decide)⟩

/-- C9 (amended): extraction is idempotent for values obtained by the
primary scan strategy: whenever `parseCharByChar` succeeds on some input,
yielding value `v` from extracted object-literal substring `s`, re-running
the full extraction with the same (identifier) variable name on
`var NAME = s;` succeeds — again through the scan strategy, which re-reads
exactly `s` — and yields the same value `v`.  (The counterexample shows the
claim fails for values recovered by the regex fallback, whose quote
normalization parses a different text than the extracted substring.) -/
theorem C9_amended (html name vid s : Str) (v : Json)
    (hname : IsIdent name)
    (h : parseCharByChar html name vid = .ok (s, v)) :
    jsVarParse (reInput name s) name vid = .ok (s, v) := by
  obtain ⟨a, openIdx, k, hsplit, hidx, hscan, hs, hjson⟩ :=
    parseCharByChar_ok html name vid s v h
  have hmarker_ne : varMarker name ≠ [] := by simp [varMarker, str]
  -- the split segment holds no further marker occurrence, hence neither does s
  have hafree : ∀ j, (varMarker name).isPrefixOf (a.drop j) = false := by
    rcases hsplit with h1 | ⟨h1, h2⟩
    · exact part1After_no_marker _ hmarker_ne _ _ h1
    · exact marker_free_of_name_free name a (part1After_no_marker _ hname.1 _ _ h2)
  have hsfree : ∀ j, (varMarker name).isPrefixOf (s.drop j) = false := by
    rw [hs]
    exact no_occur_in_extract _ _ hmarker_ne hafree openIdx k
  have hpart := part1After_reInput name s hname hsfree
  -- s starts with the opening brace
  obtain ⟨c0, t0, hdrop0, hc0⟩ := findCharIdx_drop_head _ a openIdx hidx
  have hc0' : c0 = '{' := by simpa using hc0
  have hk := scanObj_some_lt _ _ _ hscan
  have hslen : s.length = k + 1 := by
    rw [hs, List.length_take]
    rw [List.length_drop] at hk
    rw [List.length_drop]
    omega
  have hs_cons : s = '{' :: t0.take k := by
    rw [hs, hdrop0, hc0', List.take_succ_cons]
  -- the scan of the re-extraction input stops exactly at the end of s
  have hscan_s : scanObj s scanInit = some k := by
    rw [hs]
    exact scanObj_take _ _ _ hscan
  have hscan' : scanObj (s ++ [';']) scanInit = some k :=
    scanObj_append [';'] s scanInit k hscan_s
  have hidx' : findCharIdx (fun c => c = '{') (str " = " ++ (s ++ [';'])) = some 3 := by
    rw [hs_cons]
    rfl
  have hdrop3 : (str " = " ++ (s ++ [';'])).drop 3 = s ++ [';'] := by
    simp [str]
  have htake : (s ++ [';']).take (k + 1) = s := by
    rw [← hslen]
    exact List.take_left _ _
  have hcbc : parseCharByChar (reInput name s) name vid = .ok (s, v) := by
    unfold parseCharByChar
    rw [hpart]
    show (match findCharIdx (fun c => c = '{') (str " = " ++ (s ++ [';'])) with
      | none => (Except.error (dataUnparsable vid) : Except RetrieveErr (Str × Json))
      | some openIdx =>
        match scanObj ((str " = " ++ (s ++ [';'])).drop openIdx) scanInit with
        | none => Except.error (dataUnparsable vid)
        | some k =>
          match jsonParse (((str " = " ++ (s ++ [';'])).drop openIdx).take (k + 1)) with
          | some v' => Except.ok (((str " = " ++ (s ++ [';'])).drop openIdx).take (k + 1), v')
          | none => Except.error (dataUnparsable vid)) = .ok (s, v)
    rw [hidx']
    show (match scanObj ((str " = " ++ (s ++ [';'])).drop 3) scanInit with
      | none => (Except.error (dataUnparsable vid) : Except RetrieveErr (Str × Json))
      | some k =>
        match jsonParse (((str " = " ++ (s ++ [';'])).drop 3).take (k + 1)) with
        | some v' => Except.ok (((str " = " ++ (s ++ [';'])).drop 3).take (k + 1), v')
        | none => Except.error (dataUnparsable vid)) = .ok (s, v)
    rw [hdrop3, hscan']
    show (match jsonParse ((s ++ [';']).take (k + 1)) with
      | some v' => (Except.ok ((s ++ [';']).take (k + 1), v') :
          Except RetrieveErr (Str × Json))
      | none => Except.error (dataUnparsable vid)) = .ok (s, v)
    rw [htake, hjson]
  unfold jsVarParse
  rw [hcbc]

/-- C9 (witness): scan-path idempotence at a concrete extraction. -/
theorem C9_witness :
    jsVarParse (reInput (str "X") ('{' :: (str "\"a\": 1" ++ ['}']))) (str "X") (str "vid1") =
      .ok ('{' :: (str "\"a\": 1" ++ ['}']),
        .obj [(['a'], .num { num := 1, den := 1 })]) :=
  C9_amended (str "var X = " ++ ('{' :: (str "\"a\": 1" ++ ['}'])) ++ [';'])
    (str "X") (str "vid1") _ _ ⟨by decide, by decide⟩ (by rfl)

end YtSpec
